import Mathlib

/-!
Verification of the streaming form-data parser specification (werkzeug
formparser).  The parser implementation is modelled from the specification
document, component by component: Line Splitter, Header Block Parser,
Boundary Scanner helper, Part Decoder, Multipart Parser state machine,
URL-Encoded Parser and the Form Data Dispatcher.  Byte strings are
modelled as lists of characters (one character per byte, latin-1 style),
fallible operations return an Except value, and all definitions are
executable so that concrete requests from the test suite can be evaluated
inside proofs.
-/

/-- Shorthand: the byte content of a string literal as a list of characters. -/
def cs (s : String) : List Char := s.data

/-- Horizontal and vertical whitespace, as stripped by the parser. -/
def isWS (c : Char) : Bool := c = ' ' || c = '\t' || c = '\r' || c = '\n'

/-- A buffer containing no line-terminator character. -/
def NoTerm (l : List Char) : Prop := ∀ c ∈ l, c ≠ '\r' ∧ c ≠ '\n'

instance : DecidablePred NoTerm := fun l => by unfold NoTerm; infer_instance

/-- Strip trailing whitespace. -/
def rstripWS (l : List Char) : List Char := (l.reverse.dropWhile isWS).reverse

/-- Strip leading and trailing whitespace. -/
def stripWS (l : List Char) : List Char := (l.dropWhile isWS).reverse.dropWhile isWS |>.reverse

/-- Lower-case a byte string (header names are normalized to lower case). -/
def lowerCS (l : List Char) : List Char := l.map Char.toLower

/-- Modelled from the spec: the Line Splitter locates the first line
terminator among CRLF, CR, LF (in that priority order, so that a CRLF pair
is never split into two lines) and splits the buffer into the line content,
the terminator bytes, and the remainder of the buffer. -/
def splitFirstLine : List Char → List Char × List Char × List Char
  | [] => ([], [], [])
  | c :: rest =>
    if c = '\r' then
      match rest with
      | [] => ([], ['\r'], [])
      | c2 :: r2 => if c2 = '\n' then ([], ['\r', '\n'], r2) else ([], ['\r'], c2 :: r2)
    else if c = '\n' then ([], ['\n'], rest)
    else
      let (l, t, r) := splitFirstLine rest
      (c :: l, t, r)

/-- Modelled from the spec: the Line Splitter entry point
(formparser line parse helper): returns the line without its terminator
together with a flag telling whether a terminator was present. -/
def line_parse (buf : List Char) : List Char × Bool :=
  ((splitFirstLine buf).1, !(splitFirstLine buf).2.1.isEmpty)

/-- Splits a whole body into physical lines, each line keeping its
terminator bytes; a final line without terminator is kept as-is.  The
accumulator holds the reversed content of the line being read. -/
def splitLinesAux : List Char → List Char → List (List Char)
  | [], acc => if acc.isEmpty then [] else [acc.reverse]
  | ['\r'], acc => [acc.reverse ++ ['\r']]
  | '\r' :: '\n' :: r2, acc => (acc.reverse ++ ['\r', '\n']) :: splitLinesAux r2 []
  | '\r' :: c2 :: r2, acc => (acc.reverse ++ ['\r']) :: splitLinesAux (c2 :: r2) []
  | '\n' :: rest, acc => (acc.reverse ++ ['\n']) :: splitLinesAux rest []
  | c :: rest, acc => splitLinesAux rest (c :: acc)

/-- Modelled from the spec: the body is consumed as a lazy sequence of
terminated lines; here the whole body is split up front. -/
def splitLines (body : List Char) : List (List Char) := splitLinesAux body []

/-- Strips one trailing line terminator (CRLF, CR or LF) from a buffer;
used when the final newline of a part body belongs to the following
boundary delimiter, not to the part content. -/
def stripLastTerm (l : List Char) : List Char :=
  match l.reverse with
  | [] => l
  | c :: rest =>
    if c = '\n' then
      match rest with
      | [] => []
      | c2 :: rest2 => if c2 = '\r' then rest2.reverse else (c2 :: rest2).reverse
    else if c = '\r' then rest.reverse
    else l

/-- Does the line begin with horizontal whitespace (header continuation)? -/
def startsWithWS : List Char → Bool
  | ' ' :: _ => true
  | '\t' :: _ => true
  | _ => false

/-- Split at the first colon, or none when the line has no colon. -/
def splitColon : List Char → Option (List Char × List Char)
  | [] => none
  | c :: rest =>
    if c = ':' then some ([], rest)
    else (splitColon rest).map fun p => (c :: p.1, p.2)

/-- Split a buffer on every occurrence of a separator character. -/
def splitOnChar (sep : Char) : List Char → List (List Char)
  | [] => [[]]
  | c :: rest =>
    if c = sep then [] :: splitOnChar sep rest
    else
      match splitOnChar sep rest with
      | [] => [[c]]
      | l :: ls => (c :: l) :: ls

/-- Split at the first equals sign; a token without an equals sign becomes
a key with an empty value. -/
def splitKV : List Char → List Char × List Char
  | [] => ([], [])
  | c :: rest =>
    if c = '=' then ([], rest)
    else
      let (k, v) := splitKV rest
      (c :: k, v)

theorem sanity_line_parse_examples :
    line_parse (cs "foo") = (cs "foo", false) ∧
    line_parse (cs "foo\r\n") = (cs "foo", true) ∧
    line_parse (cs "foo\r") = (cs "foo", true) ∧
    line_parse (cs "foo\n") = (cs "foo", true) := by decide

theorem sanity_split_lines :
    splitLines (cs "a\r\nbb\nc\rdd") = [cs "a\r\n", cs "bb\n", cs "c\r", cs "dd"] := by decide

/-- Error kinds of the parser, modelled from the spec's error handling
design: size limit violations, malformed boundary tokens, malformed header
blocks, unsupported transfer encodings, decode failures and truncated
bodies.  A missing or name-less Content-Disposition header is the
spec's reportable condition for a part that cannot be routed. -/
inductive MpErr
  | sizeLimitExceeded
  | malformedBoundary
  | malformedHeaderBlock
  | unsupportedTransferEncoding
  | decodeError
  | truncatedBody
  | missingDisposition
deriving DecidableEq, Repr

instance instDecEqExcept {e a : Type} [DecidableEq e] [DecidableEq a] :
    DecidableEq (Except e a) := fun x y =>
  match x, y with
  | .ok u, .ok v =>
    if h : u = v then .isTrue (congrArg _ h) else .isFalse (fun he => h (Except.ok.inj he))
  | .error u, .error v =>
    if h : u = v then .isTrue (congrArg _ h) else .isFalse (fun he => h (Except.error.inj he))
  | .ok _, .error _ => .isFalse (fun he => Except.noConfusion he)
  | .error _, .ok _ => .isFalse (fun he => Except.noConfusion he)

/-- Modelled from the spec: the Header Block Parser consumes raw header
lines.  An unterminated line is a parse error; a blank line ends the
block; a line starting with horizontal whitespace continues the previous
header's value, joined with a newline, the continuation's leading
whitespace preserved; otherwise the line is split at the first colon
(no colon is a format error), the name lower-cased and both sides
stripped.  The accumulator holds the headers in reverse order. -/
def parseHeadersAux : List (List Char) → List (List Char × List Char) →
    Except MpErr (List (List Char × List Char))
  | [], acc => .ok acc.reverse
  | l :: rest, acc =>
    let (c, term) := line_parse l
    if !term then .error .malformedHeaderBlock
    else if c.isEmpty then .ok acc.reverse
    else if startsWithWS c then
      match acc with
      | [] => .error .malformedHeaderBlock
      | (k, v) :: tl => parseHeadersAux rest ((k, v ++ '\n' :: c) :: tl)
    else
      match splitColon c with
      | some (k, v) => parseHeadersAux rest ((lowerCS (stripWS k), stripWS v) :: acc)
      | none => .error .malformedHeaderBlock

/-- Modelled from the spec: entry point of the Header Block Parser
(formparser parse multipart headers). -/
def parse_multipart_headers (lines : List (List Char)) :
    Except MpErr (List (List Char × List Char)) :=
  parseHeadersAux lines []

/-- Lookup of a header value by its lower-cased name (first match). -/
def headerGet (hs : List (List Char × List Char)) (k : List Char) : Option (List Char) :=
  (hs.find? (fun p => p.1 = k)).map (fun p => p.2)

/-- Strip one matching pair of double quotes from a parameter value. -/
def unquote (l : List Char) : List Char :=
  match l with
  | '"' :: rest =>
    match rest.reverse with
    | '"' :: mid => mid.reverse
    | _ => l
  | _ => l

/-- Modelled from the spec: parse a header value of the shape
value; key=param; key="param" into the lower-cased main value and its
parameter list (used for Content-Type and Content-Disposition). -/
def parse_options_header (v : List Char) : List Char × List (List Char × List Char) :=
  match splitOnChar ';' v with
  | [] => ([], [])
  | main :: params =>
    (lowerCS (stripWS main),
     params.filterMap fun p =>
       let (k, val) := splitKV p
       let k := lowerCS (stripWS k)
       if k.isEmpty then none else some (k, unquote (stripWS val)))

/-- Parameter lookup on a parsed options header. -/
def paramGet (ps : List (List Char × List Char)) (k : List Char) : Option (List Char) :=
  (ps.find? (fun p => p.1 = k)).map (fun p => p.2)

/-- Modelled from the spec: the Boundary Scanner helper of the Multipart
Parser (find terminator): discard leading blank lines and return the
first non-blank line with its terminator stripped, leaving the remaining
lines unconsumed; an exhausted sequence yields the empty line. -/
def find_terminator : List (List Char) → List Char × List (List Char)
  | [] => ([], [])
  | l :: rest =>
    let s := (line_parse l).1
    if (stripWS s).isEmpty then find_terminator rest else (s, rest)

/-- Value of one base64 alphabet character. -/
def b64Val (c : Char) : Option Nat :=
  if 'A' ≤ c && c ≤ 'Z' then some (c.toNat - 65)
  else if 'a' ≤ c && c ≤ 'z' then some (c.toNat - 71)
  else if '0' ≤ c && c ≤ '9' then some (c.toNat + 4)
  else if c = '+' then some 62
  else if c = '/' then some 63
  else none

/-- Decode base64 in four-character groups; padding is only allowed in a
final group and any character outside the alphabet, or a group of the
wrong size, is a decode failure. -/
def b64Chunks : List Char → Option (List Char)
  | [] => some []
  | a :: b :: c :: d :: rest => do
    let va ← b64Val a
    let vb ← b64Val b
    if c = '=' then
      if d = '=' && rest.isEmpty then some [Char.ofNat (va * 4 + vb / 16)] else none
    else do
      let vc ← b64Val c
      if d = '=' then
        if rest.isEmpty then
          some [Char.ofNat (va * 4 + vb / 16), Char.ofNat ((vb % 16) * 16 + vc / 4)]
        else none
      else do
        let vd ← b64Val d
        let tl ← b64Chunks rest
        some (Char.ofNat (va * 4 + vb / 16) :: Char.ofNat ((vb % 16) * 16 + vc / 4) ::
              Char.ofNat ((vc % 4) * 64 + vd) :: tl)
  | _ => none

/-- Modelled from the spec: base64 decoding of a part payload; line breaks
inside the encoded data are ignored, bad alphabet or padding fails. -/
def base64Decode (l : List Char) : Option (List Char) :=
  b64Chunks (l.filter fun c => !(c = '\r' || c = '\n'))

/-- Value of a hexadecimal digit. -/
def hexVal (c : Char) : Option Nat :=
  if '0' ≤ c && c ≤ '9' then some (c.toNat - 48)
  else if 'A' ≤ c && c ≤ 'F' then some (c.toNat - 55)
  else if 'a' ≤ c && c ≤ 'f' then some (c.toNat - 87)
  else none

/-- Modelled from the spec: quoted-printable decoding of a part payload;
an equals sign starts a hex escape or a soft line break, anything else
after an equals sign is a decode failure. -/
def qpDecode : List Char → Option (List Char)
  | [] => some []
  | '=' :: '\r' :: '\n' :: rest => qpDecode rest
  | '=' :: a :: b :: rest =>
    match hexVal a, hexVal b with
    | some x, some y => (qpDecode rest).map fun tl => Char.ofNat (16 * x + y) :: tl
    | _, _ => none
  | '=' :: _ => none
  | c :: rest => (qpDecode rest).map fun tl => c :: tl

theorem sanity_headers_continuation :
    parse_multipart_headers [cs "foo: bar\r\n", cs " x test\r\n"] =
      .ok [(cs "foo", cs "bar\n x test")] := by decide

theorem sanity_headers_unterminated :
    parse_multipart_headers [cs "foo: bar\r\n", cs " x test"] =
      .error .malformedHeaderBlock := by decide

theorem sanity_base64 :
    base64Decode (cs "U2vlbmUgbORu") = some [Char.ofNat 83, Char.ofNat 107, Char.ofNat 229,
      Char.ofNat 110, Char.ofNat 101, Char.ofNat 32, Char.ofNat 108, Char.ofNat 228,
      Char.ofNat 110] ∧
    base64Decode (cs "Hello World") = none ∧
    base64Decode (cs "broken base 64") = none := by decide

/-- Allowed part transfer encodings, modelled from the spec's allow-list:
base64, quoted-printable and identity. -/
inductive TEnc
  | identity
  | base64
  | qp
deriving DecidableEq, Repr

/-- Modelled from the spec: apply the declared transfer encoding to a part
payload; a decoding failure is a decode error. -/
def decodeTE : TEnc → List Char → Except MpErr (List Char)
  | .identity, l => .ok l
  | .base64, l =>
    match base64Decode l with
    | some r => .ok r
    | none => .error .decodeError
  | .qp, l =>
    match qpDecode l with
    | some r => .ok r
    | none => .error .decodeError

/-- Description of one multipart part, extracted from its header block:
field versus file (presence of a filename parameter), the required name,
the optional filename, the content type and the transfer encoding. -/
structure PartDesc where
  isFile : Bool
  name : List Char
  filename : List Char
  contentType : List Char
  enc : TEnc
deriving DecidableEq, Repr

/-- Modelled from the spec: the Part Decoder's header analysis.  The
Content-Disposition header must be present with a name parameter (a part
without it is a reportable condition); the filename parameter decides
field versus file; the Content-Transfer-Encoding header must belong to
the allow-list. -/
def makePartDesc (hs : List (List Char × List Char)) : Except MpErr PartDesc := do
  match headerGet hs (cs "content-disposition") with
  | none => .error .missingDisposition
  | some dv =>
    let params := (parse_options_header dv).2
    match paramGet params (cs "name") with
    | none => .error .missingDisposition
    | some nm =>
      let fn := paramGet params (cs "filename")
      let ct := (headerGet hs (cs "content-type")).getD (cs "text/plain")
      let enc ←
        match headerGet hs (cs "content-transfer-encoding") with
        | none => Except.ok TEnc.identity
        | some e =>
          let e := lowerCS (stripWS e)
          if e = cs "base64" then Except.ok TEnc.base64
          else if e = cs "quoted-printable" then Except.ok TEnc.qp
          else if e = cs "identity" then Except.ok TEnc.identity
          else Except.error MpErr.unsupportedTransferEncoding
      .ok ⟨fn.isSome, nm, fn.getD [], ct, enc⟩

/-- File Upload Entry, modelled from the spec's data model (the seekable
byte stream is modelled by the decoded content bytes). -/
structure FileEntry where
  name : List Char
  filename : List Char
  contentType : List Char
  content : List Char
deriving DecidableEq, Repr

/-- Result of one multipart or urlencoded parse: the ordered multi-valued
Form Field Mapping and the ordered multi-valued File Mapping. -/
structure MpResult where
  form : List (List Char × List Char)
  files : List (List Char × FileEntry)
deriving DecidableEq, Repr

/-- Limits, modelled from the spec's data model: both optional, immutable
per parse invocation. -/
structure Limits where
  maxContentLength : Option Nat
  maxFormMemorySize : Option Nat
deriving DecidableEq, Repr

/-- Does a byte count exceed an optional limit? -/
def exceedsLimit : Option Nat → Nat → Bool
  | none, _ => false
  | some m, n => m < n

/-- Parser accumulator: fields and files committed so far, plus the
cumulative byte count of all committed field values, which is tracked
against the in-memory form size limit. -/
structure PAcc where
  form : List (List Char × List Char)
  files : List (List Char × FileEntry)
  fieldBytes : Nat
deriving DecidableEq, Repr

/-- The first-boundary line of the multipart wire format. -/
def nextPart (bnd : List Char) : List Char := '-' :: '-' :: bnd

/-- The final-boundary line of the multipart wire format. -/
def lastPart (bnd : List Char) : List Char := '-' :: '-' :: bnd ++ ['-', '-']

/-- Modelled from the spec: committing one finished part.  The raw body
lines are joined, the newline owned by the following boundary is removed,
the declared transfer encoding is undone (failures are fatal), and the
result is routed either to the File Mapping or to the Form Field Mapping;
field bytes are counted against the in-memory form size limit and
exceeding it aborts with a size-limit error. -/
def commitPart (limits : Limits) (pd : PartDesc) (raw : List (List Char)) (acc : PAcc) :
    Except MpErr PAcc := do
  let payload ← decodeTE pd.enc (stripLastTerm raw.reverse.flatten)
  if pd.isFile then
    .ok ⟨acc.form, acc.files ++ [(pd.name, ⟨pd.name, pd.filename, pd.contentType, payload⟩)],
         acc.fieldBytes⟩
  else
    let n := acc.fieldBytes + payload.length
    if exceedsLimit limits.maxFormMemorySize n then .error .sizeLimitExceeded
    else .ok ⟨acc.form ++ [(pd.name, payload)], acc.files, n⟩

/-- States of the Multipart Parser state machine, modelled from the spec:
scanning the preamble for the first boundary, accumulating one part's
header lines, or accumulating one part's body lines. -/
inductive PState
  | preamble
  | inHeaders (hacc : List (List Char))
  | inBody (pd : PartDesc) (bacc : List (List Char))

/-- Modelled from the spec: the Multipart Parser state machine.  Preamble
lines are discarded until the first boundary; header lines are collected
until the blank line then parsed and analyzed; body lines are collected
until a boundary line, at which point the part is committed; the final
boundary terminates with the accumulated mappings and the end of the line
sequence in any other situation is a truncated body. -/
def run (bnd : List Char) (limits : Limits) :
    PState → PAcc → List (List Char) → Except MpErr MpResult
  | .preamble, _, [] => .error .truncatedBody
  | .inHeaders _, _, [] => .error .truncatedBody
  | .inBody _ _, _, [] => .error .truncatedBody
  | .preamble, acc, l :: rest =>
    let s := rstripWS l
    if s = nextPart bnd then run bnd limits (.inHeaders []) acc rest
    else if s = lastPart bnd then .ok ⟨acc.form, acc.files⟩
    else run bnd limits .preamble acc rest
  | .inHeaders hacc, acc, l :: rest =>
    let (c, term) := line_parse l
    if !term then .error .malformedHeaderBlock
    else if c.isEmpty then
      match parse_multipart_headers hacc.reverse with
      | .error e => .error e
      | .ok hs =>
        match makePartDesc hs with
        | .error e => .error e
        | .ok pd => run bnd limits (.inBody pd []) acc rest
    else run bnd limits (.inHeaders (l :: hacc)) acc rest
  | .inBody pd bacc, acc, l :: rest =>
    let s := rstripWS l
    if s = nextPart bnd then
      match commitPart limits pd bacc acc with
      | .error e => .error e
      | .ok acc2 => run bnd limits (.inHeaders []) acc2 rest
    else if s = lastPart bnd then
      match commitPart limits pd bacc acc with
      | .error e => .error e
      | .ok acc2 => .ok ⟨acc2.form, acc2.files⟩
    else run bnd limits (.inBody pd (l :: bacc)) acc rest

/-- Modelled from the spec: a boundary token is structurally valid when it
is non-empty, consists of printable ASCII bytes and does not end in
whitespace (a trailing blank is invalid). -/
def is_valid_multipart_boundary (b : List Char) : Bool :=
  !b.isEmpty &&
  b.all (fun c => decide (32 ≤ c.toNat) && decide (c.toNat ≤ 126)) &&
  (match b.getLast? with
   | some c => !(c = ' ' || c = '\t')
   | none => false)

/-- Modelled from the spec: the Multipart Parser entry point.  An invalid
boundary is rejected before any byte of the body is read; the observed
body size is tracked against the content length limit; then the state
machine consumes the body's lines. -/
def multipart_parse (bnd : List Char) (limits : Limits) (body : List Char) :
    Except MpErr MpResult :=
  if !is_valid_multipart_boundary bnd then .error .malformedBoundary
  else if exceedsLimit limits.maxContentLength body.length then .error .sizeLimitExceeded
  else run bnd limits .preamble ⟨[], [], 0⟩ (splitLines body)

/-- Modelled from the spec: percent- and plus-decoding of one urlencoded
token (an invalid escape is passed through as a literal percent sign). -/
def pctDecode : List Char → List Char
  | [] => []
  | '+' :: rest => ' ' :: pctDecode rest
  | '%' :: a :: b :: rest =>
    match hexVal a, hexVal b with
    | some x, some y => Char.ofNat (16 * x + y) :: pctDecode rest
    | _, _ => '%' :: pctDecode (a :: b :: rest)
  | c :: rest => c :: pctDecode rest

/-- The raw key=value tokens of an urlencoded body, empty tokens dropped. -/
def urlPairs (body : List Char) : List (List Char × List Char) :=
  (splitOnChar '&' body).filterMap fun tok =>
    if tok.isEmpty then none else some (splitKV tok)

/-- Modelled from the spec: the URL-Encoded Parser's streaming scan; the
cumulative decoded size of the field values is tracked against the
in-memory form size limit and exceeding it aborts with a size-limit
error, discarding partial results. -/
def urlFold (mfs : Option Nat) : List (List Char × List Char) → Nat →
    Except MpErr (List (List Char × List Char))
  | [], _ => .ok []
  | (k, v) :: ps, bytes =>
    let vd := pctDecode v
    let n := bytes + vd.length
    if exceedsLimit mfs n then .error .sizeLimitExceeded
    else
      match urlFold mfs ps n with
      | .error e => .error e
      | .ok tl => .ok ((pctDecode k, vd) :: tl)

/-- Modelled from the spec: the URL-Encoded Parser entry point; the
observed body size is tracked against the content length limit. -/
def parse_urlencoded (limits : Limits) (body : List Char) : Except MpErr MpResult :=
  if exceedsLimit limits.maxContentLength body.length then .error .sizeLimitExceeded
  else
    match urlFold limits.maxFormMemorySize (urlPairs body) 0 with
    | .error e => .error e
    | .ok ps => .ok ⟨ps, []⟩

/-- The two body encodings the dispatcher recognizes. -/
inductive DispatchKind
  | multipart (bnd : List Char)
  | urlencoded
deriving DecidableEq, Repr

/-- Modelled from the spec: content-type recognition of the Form Data
Dispatcher.  A multipart content type is recognized only together with a
boundary parameter; anything other than the two known encodings, or an
absent content type, is unrecognized. -/
def dispatchKind (ct : Option (List Char)) : Option DispatchKind :=
  match ct with
  | none => none
  | some v =>
    let (mt, params) := parse_options_header v
    if mt = cs "multipart/form-data" then
      match paramGet params (cs "boundary") with
      | some b => some (.multipart b)
      | none => none
    else if mt = cs "application/x-www-form-urlencoded" then some .urlencoded
    else none

/-- Parse Result of the dispatcher, modelled from the spec: the remaining
or empty stream, the Form Field Mapping and the File Mapping. -/
structure FormDataResult where
  stream : List Char
  form : List (List Char × List Char)
  files : List (List Char × FileEntry)
deriving DecidableEq, Repr

/-- Modelled from the spec: silent mode swallows parse errors and returns
empty mappings instead of propagating; a size-limit error is always fatal
to the parse and is never swallowed. -/
def wrapSilent (silent : Bool) (r : Except MpErr MpResult) : Except MpErr FormDataResult :=
  match r with
  | .ok res => .ok ⟨[], res.form, res.files⟩
  | .error e =>
    if silent && !(e = MpErr.sizeLimitExceeded) then .ok ⟨[], [], []⟩ else .error e

/-- Modelled from the spec: the Form Data Dispatcher (formparser parse
form data).  With an unrecognized or absent content type the result is an
empty stream and empty mappings without touching the body; with a
recognized content type, a declared content length exceeding the content
length limit fails immediately without reading the stream, and otherwise
the matching parser runs, its errors filtered by the silent mode. -/
def parse_form_data (ct : Option (List Char)) (contentLength : Option Nat)
    (limits : Limits) (silent : Bool) (body : List Char) : Except MpErr FormDataResult :=
  match dispatchKind ct with
  | none => .ok ⟨[], [], []⟩
  | some k =>
    if (match limits.maxContentLength, contentLength with
        | some m, some cl => decide (m < cl)
        | _, _ => false) then
      .error .sizeLimitExceeded
    else
      match k with
      | .multipart b => wrapSilent silent (multipart_parse b limits body)
      | .urlencoded => wrapSilent silent (parse_urlencoded limits body)

theorem sanity_urlencoded_basic :
    parse_urlencoded ⟨none, none⟩ (cs "foo=Hello+World&bar=baz") =
      .ok ⟨[(cs "foo", cs "Hello World"), (cs "bar", cs "baz")], []⟩ := by decide

theorem sanity_multipart_basic :
    multipart_parse (cs "foo") ⟨none, none⟩
      (cs "--foo\r\nContent-Disposition: form-field; name=foo\r\n\r\nHello World\r\n--foo\r\nContent-Disposition: form-field; name=bar\r\n\r\nbar=baz\r\n--foo--") =
      .ok ⟨[(cs "foo", cs "Hello World"), (cs "bar", cs "bar=baz")], []⟩ := by decide

theorem noTerm_nil : NoTerm [] := by intro c hc; cases hc

theorem noTerm_cons {c : Char} {l : List Char} :
    NoTerm (c :: l) ↔ (c ≠ '\r' ∧ c ≠ '\n') ∧ NoTerm l := by
  constructor
  · intro h; exact ⟨h c (by simp), fun x hx => h x (by simp [hx])⟩
  · rintro ⟨hc, hl⟩ x hx
    rcases List.mem_cons.mp hx with h | h
    · rw [h]; exact hc
    · exact hl x h

theorem noTerm_append {a b : List Char} (ha : NoTerm a) (hb : NoTerm b) :
    NoTerm (a ++ b) := by
  intro c hc
  rcases List.mem_append.mp hc with h | h
  · exact ha c h
  · exact hb c h

theorem splitFirstLine_crlf (l r : List Char) (h : NoTerm l) :
    splitFirstLine (l ++ '\r' :: '\n' :: r) = (l, ['\r', '\n'], r) := by
  induction l with
  | nil => simp [splitFirstLine]
  | cons c tl ih =>
    rw [noTerm_cons] at h
    simp [splitFirstLine, h.1.1, h.1.2, ih h.2]

theorem splitFirstLine_lf (l r : List Char) (h : NoTerm l) :
    splitFirstLine (l ++ '\n' :: r) = (l, ['\n'], r) := by
  induction l with
  | nil => simp [splitFirstLine]
  | cons c tl ih =>
    rw [noTerm_cons] at h
    simp [splitFirstLine, h.1.1, h.1.2, ih h.2]

theorem splitFirstLine_cr (l r : List Char) (h : NoTerm l) (hr : r.head? ≠ some '\n') :
    splitFirstLine (l ++ '\r' :: r) = (l, ['\r'], r) := by
  induction l with
  | nil =>
    match r, hr with
    | [], _ => simp [splitFirstLine]
    | c2 :: r2, hr =>
      have hc2 : c2 ≠ '\n' := by intro h2; exact hr (by simp [h2])
      simp [splitFirstLine, hc2]
  | cons c tl ih =>
    rw [noTerm_cons] at h
    simp [splitFirstLine, h.1.1, h.1.2, ih h.2]

theorem splitFirstLine_noTerm (l : List Char) (h : NoTerm l) :
    splitFirstLine l = (l, [], []) := by
  induction l with
  | nil => simp [splitFirstLine]
  | cons c tl ih =>
    rw [noTerm_cons] at h
    simp [splitFirstLine, h.1.1, h.1.2, ih h.2]

theorem line_parse_crlf (l : List Char) (h : NoTerm l) :
    line_parse (l ++ cs "\r\n") = (l, true) := by
  have := splitFirstLine_crlf l [] h
  simp [line_parse, cs] at this ⊢
  rw [show l ++ ['\r', '\n'] = l ++ '\r' :: '\n' :: [] from rfl, this]
  simp

theorem line_parse_noTerm (l : List Char) (h : NoTerm l) :
    line_parse l = (l, false) := by
  simp [line_parse, splitFirstLine_noTerm l h]

/-- The three line terminators a body may use between its lines. -/
inductive TSep
  | n
  | r
  | rn
deriving DecidableEq, Repr

/-- The bytes of a terminator. -/
def sepChars : TSep → List Char
  | .n => ['\n']
  | .r => ['\r']
  | .rn => ['\r', '\n']

theorem line_parse_sep (s : TSep) (l : List Char) (h : NoTerm l) :
    line_parse (l ++ sepChars s) = (l, true) := by
  cases s
  · show line_parse (l ++ '\n' :: []) = (l, true)
    simp [line_parse, splitFirstLine_lf l [] h]
  · show line_parse (l ++ '\r' :: []) = (l, true)
    simp [line_parse, splitFirstLine_cr l [] h (by simp)]
  · show line_parse (l ++ '\r' :: '\n' :: []) = (l, true)
    simp [line_parse, splitFirstLine_crlf l [] h]

theorem mem_of_mem_reverse {c : Char} {l : List Char} (h : c ∈ l.reverse) : c ∈ l := by
  simpa using h

theorem rstripWS_append_sep (s : TSep) (l : List Char) :
    rstripWS (l ++ sepChars s) = rstripWS l := by
  cases s <;> simp [rstripWS, sepChars, List.dropWhile, isWS]

theorem stripLastTerm_append_sep (s : TSep) (l : List Char) (h : NoTerm l) :
    stripLastTerm (l ++ sepChars s) = l := by
  cases s
  case n =>
    show stripLastTerm (l ++ ['\n']) = l
    simp only [stripLastTerm, List.reverse_append, List.reverse_cons, List.reverse_nil,
      List.nil_append, List.singleton_append]
    cases hl : l.reverse with
    | nil => simpa using congrArg List.reverse hl
    | cons c tl =>
      have hc : c ≠ '\r' :=
        (h c (mem_of_mem_reverse (by rw [hl]; simp))).1
      simp only [hc, if_false]
      have h2 := congrArg List.reverse hl
      simpa using h2.symm
  case r =>
    show stripLastTerm (l ++ ['\r']) = l
    simp only [stripLastTerm, List.reverse_append, List.reverse_cons, List.reverse_nil,
      List.nil_append, List.singleton_append]
    simp
  case rn =>
    show stripLastTerm (l ++ ['\r', '\n']) = l
    simp only [stripLastTerm, List.reverse_append]
    simp

theorem splitFirstLine_cons_other {c : Char} (rest : List Char)
    (hc : c ≠ '\r') (hn : c ≠ '\n') :
    splitFirstLine (c :: rest) =
      (c :: (splitFirstLine rest).1, (splitFirstLine rest).2.1, (splitFirstLine rest).2.2) := by
  simp [splitFirstLine, hc, hn]

/-- C8: for every byte buffer, the Line Splitter returns the content up to
the first line terminator (the terminator stripped) together with a flag
that is true exactly when some terminator occurs in the buffer; the
recognized terminators are CRLF, CR and LF, the consumed terminator
directly follows the returned line, and a CR directly followed by an LF is
never split into two terminators (CRLF priority); a buffer without any
terminator is returned whole with the flag false. -/
theorem C8_line_splitter (buf : List Char) :
    line_parse buf = (buf.takeWhile (fun c => !(c = '\r' || c = '\n')),
                      buf.any (fun c => c = '\r' || c = '\n')) ∧
    buf = (splitFirstLine buf).1 ++ (splitFirstLine buf).2.1 ++ (splitFirstLine buf).2.2 ∧
    ((splitFirstLine buf).2.1 = ['\r', '\n'] ∨ (splitFirstLine buf).2.1 = ['\r'] ∨
     (splitFirstLine buf).2.1 = ['\n'] ∨
     ((splitFirstLine buf).2.1 = [] ∧ (splitFirstLine buf).2.2 = [])) ∧
    ¬((splitFirstLine buf).2.1 = ['\r'] ∧ (splitFirstLine buf).2.2.head? = some '\n') := by
  induction buf with
  | nil => exact ⟨by decide, by decide, by decide, by decide⟩
  | cons c rest ih =>
    by_cases hc : c = '\r'
    · subst hc
      cases rest with
      | nil => exact ⟨by decide, by decide, by decide, by decide⟩
      | cons c2 r2 =>
        by_cases hc2 : c2 = '\n'
        · subst hc2
          refine ⟨?_, ?_, ?_, ?_⟩ <;>
            simp [line_parse, splitFirstLine, List.takeWhile, List.any]
        · refine ⟨?_, ?_, ?_, ?_⟩ <;>
            simp [line_parse, splitFirstLine, List.takeWhile, List.any, hc2]
    · by_cases hn : c = '\n'
      · subst hn
        refine ⟨?_, ?_, ?_, ?_⟩ <;>
          simp [line_parse, splitFirstLine, List.takeWhile, List.any]
      · obtain ⟨ih1, ih2, ih3, ih4⟩ := ih
        have hsp := splitFirstLine_cons_other rest hc hn
        refine ⟨?_, ?_, ?_, ?_⟩
        · have h1 : (line_parse rest).1 = (splitFirstLine rest).1 := rfl
          have h2 : (line_parse rest).2 = !(splitFirstLine rest).2.1.isEmpty := rfl
          simp [line_parse, hsp, List.takeWhile, List.any, hc, hn]
          constructor
          · have := congrArg Prod.fst ih1
            simpa [line_parse] using this
          · have := congrArg Prod.snd ih1
            simp [line_parse] at this
            simp [← this]
        · rw [hsp]
          simpa using ih2
        · rw [hsp]
          exact ih3
        · rw [hsp]
          exact ih4

/-- C10: the boundary-search helper discards leading blank or empty lines
and returns the first non-blank line with its terminator stripped, leaving
the remaining lines unconsumed; a sequence that is exhausted, or yields
only blank or empty lines, produces the empty line instead of an error. -/
theorem C10_find_terminator (pre rest : List (List Char)) (l : List Char)
    (hpre : ∀ b ∈ pre, (stripWS (line_parse b).1).isEmpty = true)
    (hl : (stripWS (line_parse l).1).isEmpty = false) :
    find_terminator (pre ++ l :: rest) = ((line_parse l).1, rest) ∧
    find_terminator pre = ([], []) := by
  induction pre with
  | nil =>
    refine ⟨?_, rfl⟩
    simp [find_terminator, hl]
  | cons b tl ih =>
    have hb := hpre b (by simp)
    have htl : ∀ x ∈ tl, (stripWS (line_parse x).1).isEmpty = true :=
      fun x hx => hpre x (by simp [hx])
    obtain ⟨ih1, ih2⟩ := ih htl
    constructor
    · simpa [find_terminator, hb] using ih1
    · simpa [find_terminator, hb] using ih2

theorem C10_witness :
    find_terminator [cs "\n", cs "\n", cs "\n", cs "foo\n", cs "bar\n", cs "baz"] =
      (cs "foo", [cs "bar\n", cs "baz"]) ∧
    find_terminator [] = ([], []) ∧
    find_terminator [([] : List Char)] = ([], []) := by
  refine ⟨?_, ?_, ?_⟩
  · have h := (C10_find_terminator [cs "\n", cs "\n", cs "\n"] [cs "bar\n", cs "baz"]
      (cs "foo\n") (by decide) (by decide)).1
    simpa using h
  · exact (C10_find_terminator [] [] (cs "x") (by decide) (by decide)).2
  · exact (C10_find_terminator [([] : List Char)] [] (cs "x")
      (by decide) (by decide)).2

theorem stripWS_cons_space (x : List Char) : stripWS (' ' :: x) = stripWS x := by
  simp [stripWS, List.dropWhile, isWS]

/-- C7: a header line followed by a line beginning with horizontal
whitespace yields one header whose value is the first value joined with a
newline to the continuation line, the continuation's leading whitespace
preserved; and the Header Block Parser fails with a parse error when the
block ends mid-header, on a final line without its terminator. -/
theorem C7_header_continuation (v cont w : List Char)
    (hv : NoTerm v) (hvs : stripWS v = v) (hc : NoTerm cont)
    (hw : (line_parse w).2 = false) :
    parse_multipart_headers [cs "foo: " ++ v ++ cs "\r\n", ' ' :: cont ++ cs "\r\n"] =
      .ok [(cs "foo", v ++ '\n' :: ' ' :: cont)] ∧
    parse_multipart_headers [cs "foo: " ++ v ++ cs "\r\n", w] =
      .error .malformedHeaderBlock := by
  have hnl : NoTerm (cs "foo: " ++ v) := noTerm_append (by decide) hv
  have h1 : line_parse (cs "foo: " ++ v ++ cs "\r\n") = (cs "foo: " ++ v, true) :=
    line_parse_crlf _ hnl
  have hcolon : splitColon (cs "foo: " ++ v) = some (cs "foo", ' ' :: v) := by
    simp [cs, splitColon]
  have hkey : lowerCS (stripWS (cs "foo")) = cs "foo" := by decide
  have hval : stripWS (' ' :: v) = v := by rw [stripWS_cons_space]; exact hvs
  have h2 : line_parse (' ' :: cont ++ cs "\r\n") = (' ' :: cont, true) := by
    have : NoTerm (' ' :: cont) := noTerm_cons.mpr ⟨by decide, hc⟩
    exact line_parse_crlf _ this
  constructor
  · simp only [parse_multipart_headers, parseHeadersAux, h1, h2, hcolon, hkey, hval]
    simp [cs, startsWithWS, parseHeadersAux]
  · rcases hlw : line_parse w with ⟨cw, tw⟩
    rw [hlw] at hw
    simp only at hw
    subst hw
    simp only [parse_multipart_headers, parseHeadersAux, h1, hcolon, hkey, hval, hlw]
    simp [cs, startsWithWS]

theorem C7_witness :
    parse_multipart_headers [cs "foo: bar\r\n", cs " x test\r\n"] =
      .ok [(cs "foo", cs "bar\n x test")] ∧
    parse_multipart_headers [cs "foo: bar\r\n", cs " x test"] =
      .error .malformedHeaderBlock := by
  have h := C7_header_continuation (cs "bar") (cs "x test") (cs " x test")
    (by decide) (by decide) (by decide) (by decide)
  exact ⟨by simpa using h.1, by simpa using h.2⟩

/-- C6: an empty or structurally invalid boundary token (for example one
with trailing whitespace) is rejected with a malformed-boundary error for
every body, before any byte of the body is read. -/
theorem C6_invalid_boundary (b : List Char) (limits : Limits) (body : List Char)
    (h : is_valid_multipart_boundary b = false) :
    multipart_parse b limits body = .error .malformedBoundary := by
  simp [multipart_parse, h]

theorem C6_witness :
    is_valid_multipart_boundary (cs "") = false ∧
    is_valid_multipart_boundary (cs "broken  ") = false ∧
    multipart_parse (cs "") ⟨none, none⟩ (cs "--x--") = .error .malformedBoundary ∧
    multipart_parse (cs "broken  ") ⟨none, none⟩ [] = .error .malformedBoundary :=
  ⟨by decide, by decide,
   C6_invalid_boundary (cs "") ⟨none, none⟩ (cs "--x--") (by decide),
   C6_invalid_boundary (cs "broken  ") ⟨none, none⟩ [] (by decide)⟩

/-- C5: with an absent or unrecognized content type (anything other than
multipart with a boundary parameter or urlencoded) the dispatcher returns
an empty stream and empty field and file mappings, for every declared
length, limits, silent flag and body. -/
theorem C5_unrecognized_content_type (ct : Option (List Char)) (cl : Option Nat)
    (limits : Limits) (silent : Bool) (body : List Char)
    (h : dispatchKind ct = none) :
    parse_form_data ct cl limits silent body = .ok ⟨[], [], []⟩ := by
  simp [parse_form_data, h]

theorem C5_witness :
    dispatchKind none = none ∧
    dispatchKind (some (cs "text/plain")) = none ∧
    parse_form_data none none ⟨none, none⟩ true (cs "some put content") =
      .ok ⟨[], [], []⟩ ∧
    parse_form_data (some (cs "text/plain")) (some 7) ⟨none, none⟩ false (cs "junk") =
      .ok ⟨[], [], []⟩ :=
  ⟨by decide, by decide,
   C5_unrecognized_content_type none none ⟨none, none⟩ true (cs "some put content")
     (by decide),
   C5_unrecognized_content_type (some (cs "text/plain")) (some 7) ⟨none, none⟩ false
     (cs "junk") (by decide)⟩

theorem head?_append_of_head {x r : List Char} {a : Char} (h : x.head? = some a) :
    (x ++ r).head? = some a := by
  cases x with
  | nil => cases h
  | cons c t => simpa using h

theorem splitLinesAux_chunk (s : TSep) (l r : List Char) (acc : List Char)
    (h : NoTerm l) (hr : s = .r → r.head? ≠ some '\n') :
    splitLinesAux (l ++ sepChars s ++ r) acc =
      (acc.reverse ++ l ++ sepChars s) :: splitLinesAux r [] := by
  induction l generalizing acc with
  | nil =>
    cases s
    case n => simp [splitLinesAux, sepChars]
    case r =>
      cases r with
      | nil => simp [splitLinesAux, sepChars]
      | cons c2 r2 =>
        have hc2 : c2 ≠ '\n' := by
          intro h2
          exact (hr rfl) (by simp [h2])
        simp [splitLinesAux, sepChars, hc2]
    case rn => simp [splitLinesAux, sepChars]
  | cons c tl ih =>
    rw [noTerm_cons] at h
    have step : splitLinesAux ((c :: tl) ++ sepChars s ++ r) acc =
        splitLinesAux (tl ++ sepChars s ++ r) (c :: acc) := by
      simp [splitLinesAux, h.1.1, h.1.2]
    rw [step, ih (c :: acc) h.2]
    simp

theorem splitLinesAux_sep (s : TSep) (r : List Char)
    (hr : s = .r → r.head? ≠ some '\n') :
    splitLinesAux (sepChars s ++ r) [] = sepChars s :: splitLinesAux r [] := by
  simpa using splitLinesAux_chunk s [] r [] noTerm_nil hr

theorem run_step_preamble_next (bnd : List Char) (limits : Limits) (acc : PAcc)
    (l : List Char) (rest : List (List Char)) (h : rstripWS l = nextPart bnd) :
    run bnd limits .preamble acc (l :: rest) = run bnd limits (.inHeaders []) acc rest := by
  simp [run, h]

theorem run_step_preamble_skip (bnd : List Char) (limits : Limits) (acc : PAcc)
    (l : List Char) (rest : List (List Char))
    (h1 : rstripWS l ≠ nextPart bnd) (h2 : rstripWS l ≠ lastPart bnd) :
    run bnd limits .preamble acc (l :: rest) = run bnd limits .preamble acc rest := by
  simp [run, h1, h2]

theorem run_step_headers_collect (bnd : List Char) (limits : Limits)
    (hacc : List (List Char)) (acc : PAcc) (l : List Char) (rest : List (List Char))
    (hterm : (line_parse l).2 = true) (hne : (line_parse l).1 ≠ []) :
    run bnd limits (.inHeaders hacc) acc (l :: rest) =
      run bnd limits (.inHeaders (l :: hacc)) acc rest := by
  rcases hlp : line_parse l with ⟨c, t⟩
  rw [hlp] at hterm hne
  simp only at hterm hne
  subst hterm
  have hc : c.isEmpty = false := by
    cases c with
    | nil => exact absurd rfl hne
    | cons a b => rfl
  simp [run, hlp, hc]

theorem run_step_headers_blank (bnd : List Char) (limits : Limits)
    (hacc : List (List Char)) (acc : PAcc) (l : List Char) (rest : List (List Char))
    (hterm : line_parse l = ([], true)) :
    run bnd limits (.inHeaders hacc) acc (l :: rest) =
      match parse_multipart_headers hacc.reverse with
      | .error e => .error e
      | .ok hs =>
        match makePartDesc hs with
        | .error e => .error e
        | .ok pd => run bnd limits (.inBody pd []) acc rest := by
  simp [run, hterm]

theorem run_step_body_collect (bnd : List Char) (limits : Limits) (pd : PartDesc)
    (bacc : List (List Char)) (acc : PAcc) (l : List Char) (rest : List (List Char))
    (hb1 : rstripWS l ≠ nextPart bnd) (hb2 : rstripWS l ≠ lastPart bnd) :
    run bnd limits (.inBody pd bacc) acc (l :: rest) =
      run bnd limits (.inBody pd (l :: bacc)) acc rest := by
  simp [run, hb1, hb2]

theorem run_step_body_next (bnd : List Char) (limits : Limits) (pd : PartDesc)
    (bacc : List (List Char)) (acc : PAcc) (l : List Char) (rest : List (List Char))
    (h : rstripWS l = nextPart bnd) :
    run bnd limits (.inBody pd bacc) acc (l :: rest) =
      match commitPart limits pd bacc acc with
      | .error e => .error e
      | .ok acc2 => run bnd limits (.inHeaders []) acc2 rest := by
  simp [run, h]

theorem run_step_body_last (bnd : List Char) (limits : Limits) (pd : PartDesc)
    (bacc : List (List Char)) (acc : PAcc) (l : List Char) (rest : List (List Char))
    (h1 : rstripWS l ≠ nextPart bnd) (h2 : rstripWS l = lastPart bnd) :
    run bnd limits (.inBody pd bacc) acc (l :: rest) =
      match commitPart limits pd bacc acc with
      | .error e => .error e
      | .ok acc2 => .ok ⟨acc2.form, acc2.files⟩ := by
  simp only [run]
  rw [if_neg h1, if_pos h2]

theorem run_step_body_next_ok (bnd : List Char) (limits : Limits) (pd : PartDesc)
    (bacc : List (List Char)) (acc acc2 : PAcc) (l : List Char) (rest : List (List Char))
    (h : rstripWS l = nextPart bnd) (hc : commitPart limits pd bacc acc = .ok acc2) :
    run bnd limits (.inBody pd bacc) acc (l :: rest) =
      run bnd limits (.inHeaders []) acc2 rest := by
  rw [run_step_body_next _ _ _ _ _ _ _ h, hc]

theorem run_step_body_next_err (bnd : List Char) (limits : Limits) (pd : PartDesc)
    (bacc : List (List Char)) (acc : PAcc) (e : MpErr) (l : List Char)
    (rest : List (List Char))
    (h : rstripWS l = nextPart bnd) (hc : commitPart limits pd bacc acc = .error e) :
    run bnd limits (.inBody pd bacc) acc (l :: rest) = .error e := by
  rw [run_step_body_next _ _ _ _ _ _ _ h, hc]

theorem run_step_body_last_ok (bnd : List Char) (limits : Limits) (pd : PartDesc)
    (bacc : List (List Char)) (acc acc2 : PAcc) (l : List Char) (rest : List (List Char))
    (h1 : rstripWS l ≠ nextPart bnd) (h2 : rstripWS l = lastPart bnd)
    (hc : commitPart limits pd bacc acc = .ok acc2) :
    run bnd limits (.inBody pd bacc) acc (l :: rest) = .ok ⟨acc2.form, acc2.files⟩ := by
  rw [run_step_body_last _ _ _ _ _ _ _ h1 h2, hc]

theorem run_step_body_last_err (bnd : List Char) (limits : Limits) (pd : PartDesc)
    (bacc : List (List Char)) (acc : PAcc) (e : MpErr) (l : List Char)
    (rest : List (List Char))
    (h1 : rstripWS l ≠ nextPart bnd) (h2 : rstripWS l = lastPart bnd)
    (hc : commitPart limits pd bacc acc = .error e) :
    run bnd limits (.inBody pd bacc) acc (l :: rest) = .error e := by
  rw [run_step_body_last _ _ _ _ _ _ _ h1 h2, hc]

theorem commitPart_single_line (limits : Limits) (pd : PartDesc) (t : TSep)
    (p : List Char) (hp : NoTerm p) (acc : PAcc) :
    commitPart limits pd [p ++ sepChars t] acc =
      match decodeTE pd.enc p with
      | .error e => .error e
      | .ok data =>
        if pd.isFile then
          .ok ⟨acc.form, acc.files ++ [(pd.name, ⟨pd.name, pd.filename, pd.contentType, data⟩)],
               acc.fieldBytes⟩
        else if exceedsLimit limits.maxFormMemorySize (acc.fieldBytes + data.length) then
          .error .sizeLimitExceeded
        else .ok ⟨acc.form ++ [(pd.name, data)], acc.files, acc.fieldBytes + data.length⟩ := by
  have hflat : ([p ++ sepChars t] : List (List Char)).reverse.flatten = p ++ sepChars t := by
    simp
  rcases hde : decodeTE pd.enc p with e | data <;>
    simp [commitPart, hflat, stripLastTerm_append_sep t p hp, hde, Bind.bind, Except.bind]

theorem run_step_headers_done (bnd : List Char) (limits : Limits)
    (hacc : List (List Char)) (acc : PAcc) (l : List Char) (rest : List (List Char))
    (hs : List (List Char × List Char)) (pd : PartDesc)
    (hterm : line_parse l = ([], true))
    (hph : parse_multipart_headers hacc.reverse = .ok hs)
    (hpd : makePartDesc hs = .ok pd) :
    run bnd limits (.inHeaders hacc) acc (l :: rest) =
      run bnd limits (.inBody pd []) acc rest := by
  rw [run_step_headers_blank _ _ _ _ _ _ hterm, hph]
  simp [hpd]

theorem hdr_foo (t : TSep) :
    parse_multipart_headers [cs "Content-Disposition: form-data; name=foo" ++ sepChars t] =
      .ok [(cs "content-disposition", cs "form-data; name=foo")] := by
  have e1 := line_parse_sep t (cs "Content-Disposition: form-data; name=foo") (by decide)
  simp only [parse_multipart_headers, parseHeadersAux, e1]
  decide

theorem hdr_bar (t : TSep) :
    parse_multipart_headers [cs "Content-Disposition: form-data; name=bar" ++ sepChars t] =
      .ok [(cs "content-disposition", cs "form-data; name=bar")] := by
  have e1 := line_parse_sep t (cs "Content-Disposition: form-data; name=bar") (by decide)
  simp only [parse_multipart_headers, parseHeadersAux, e1]
  decide

/-- The physical lines of a two-field multipart body with boundary foo
(fields foo and bar), with one terminator choice per structural line. -/
def twoPartLines (t1 t2 t3 t4 t5 t6 t7 t8 : TSep) (p1 p2 : List Char) : List (List Char) :=
  [cs "--foo" ++ sepChars t1,
   cs "Content-Disposition: form-data; name=foo" ++ sepChars t2,
   sepChars t3,
   p1 ++ sepChars t4,
   cs "--foo" ++ sepChars t5,
   cs "Content-Disposition: form-data; name=bar" ++ sepChars t6,
   sepChars t7,
   p2 ++ sepChars t8,
   cs "--foo--"]

/-- The byte stream of the two-field multipart body. -/
def twoPartBody (t1 t2 t3 t4 t5 t6 t7 t8 : TSep) (p1 p2 : List Char) : List Char :=
  (twoPartLines t1 t2 t3 t4 t5 t6 t7 t8 p1 p2).flatten

theorem run_twoPart (limits : Limits) (t1 t2 t3 t4 t5 t6 t7 t8 : TSep) (p1 p2 : List Char)
    (h1 : NoTerm p1) (h2 : NoTerm p2)
    (hb1 : rstripWS p1 ≠ cs "--foo") (hb1l : rstripWS p1 ≠ cs "--foo--")
    (hb2 : rstripWS p2 ≠ cs "--foo") (hb2l : rstripWS p2 ≠ cs "--foo--") :
    run (cs "foo") limits .preamble ⟨[], [], 0⟩
        (twoPartLines t1 t2 t3 t4 t5 t6 t7 t8 p1 p2) =
      if exceedsLimit limits.maxFormMemorySize p1.length then .error .sizeLimitExceeded
      else if exceedsLimit limits.maxFormMemorySize (p1.length + p2.length) then
        .error .sizeLimitExceeded
      else .ok ⟨[(cs "foo", p1), (cs "bar", p2)], []⟩ := by
  have nb : nextPart (cs "foo") = cs "--foo" := by decide
  have lb : lastPart (cs "foo") = cs "--foo--" := by decide
  have hbnd1 : rstripWS (cs "--foo" ++ sepChars t1) = nextPart (cs "foo") := by
    rw [rstripWS_append_sep, nb]; decide
  have hbnd5 : rstripWS (cs "--foo" ++ sepChars t5) = nextPart (cs "foo") := by
    rw [rstripWS_append_sep, nb]; decide
  have ecd1 := line_parse_sep t2 (cs "Content-Disposition: form-data; name=foo") (by decide)
  have ecd2 := line_parse_sep t6 (cs "Content-Disposition: form-data; name=bar") (by decide)
  have eb3 : line_parse (sepChars t3) = ([], true) := by
    simpa using line_parse_sep t3 [] noTerm_nil
  have eb7 : line_parse (sepChars t7) = ([], true) := by
    simpa using line_parse_sep t7 [] noTerm_nil
  have hph1 : parse_multipart_headers
      ([cs "Content-Disposition: form-data; name=foo" ++ sepChars t2]).reverse =
      .ok [(cs "content-disposition", cs "form-data; name=foo")] := by
    simpa using hdr_foo t2
  have hph2 : parse_multipart_headers
      ([cs "Content-Disposition: form-data; name=bar" ++ sepChars t6]).reverse =
      .ok [(cs "content-disposition", cs "form-data; name=bar")] := by
    simpa using hdr_bar t6
  have hpd1 : makePartDesc [(cs "content-disposition", cs "form-data; name=foo")] =
      .ok ⟨false, cs "foo", [], cs "text/plain", .identity⟩ := by decide
  have hpd2 : makePartDesc [(cs "content-disposition", cs "form-data; name=bar")] =
      .ok ⟨false, cs "bar", [], cs "text/plain", .identity⟩ := by decide
  have hp1ne : rstripWS (p1 ++ sepChars t4) ≠ nextPart (cs "foo") := by
    rw [rstripWS_append_sep, nb]; exact hb1
  have hp1nl : rstripWS (p1 ++ sepChars t4) ≠ lastPart (cs "foo") := by
    rw [rstripWS_append_sep, lb]; exact hb1l
  have hp2ne : rstripWS (p2 ++ sepChars t8) ≠ nextPart (cs "foo") := by
    rw [rstripWS_append_sep, nb]; exact hb2
  have hp2nl : rstripWS (p2 ++ sepChars t8) ≠ lastPart (cs "foo") := by
    rw [rstripWS_append_sep, lb]; exact hb2l
  have hlastne : rstripWS (cs "--foo--") ≠ nextPart (cs "foo") := by decide
  have hlast : rstripWS (cs "--foo--") = lastPart (cs "foo") := by decide
  have hcommit1 := commitPart_single_line limits
    ⟨false, cs "foo", [], cs "text/plain", .identity⟩ t4 p1 h1 ⟨[], [], 0⟩
  simp [decodeTE] at hcommit1
  have hcommit2 := commitPart_single_line limits
    ⟨false, cs "bar", [], cs "text/plain", .identity⟩ t8 p2 h2
    ⟨[(cs "foo", p1)], [], p1.length⟩
  simp [decodeTE] at hcommit2
  unfold twoPartLines
  rw [run_step_preamble_next _ _ _ _ _ hbnd1]
  rw [run_step_headers_collect _ _ _ _ _ _ (by rw [ecd1]) (by rw [ecd1]; decide)]
  rw [run_step_headers_done _ _ _ _ _ _ _ _ eb3 hph1 hpd1]
  rw [run_step_body_collect _ _ _ _ _ _ _ hp1ne hp1nl]
  by_cases hx1 : exceedsLimit limits.maxFormMemorySize p1.length = true
  · have hc1 : commitPart limits
        ⟨false, cs "foo", [], cs "text/plain", .identity⟩
        [p1 ++ sepChars t4] ⟨[], [], 0⟩ = .error .sizeLimitExceeded := by
      rw [hcommit1, if_pos hx1]
    rw [run_step_body_next_err _ _ _ _ _ _ _ _ hbnd5 hc1, if_pos hx1]
  · have hc1 : commitPart limits
        ⟨false, cs "foo", [], cs "text/plain", .identity⟩
        [p1 ++ sepChars t4] ⟨[], [], 0⟩ =
        .ok ⟨[(cs "foo", p1)], [], p1.length⟩ := by
      rw [hcommit1, if_neg hx1]
    rw [run_step_body_next_ok _ _ _ _ _ _ _ _ hbnd5 hc1]
    rw [run_step_headers_collect _ _ _ _ _ _ (by rw [ecd2]) (by rw [ecd2]; decide)]
    rw [run_step_headers_done _ _ _ _ _ _ _ _ eb7 hph2 hpd2]
    rw [run_step_body_collect _ _ _ _ _ _ _ hp2ne hp2nl]
    by_cases hx2 : exceedsLimit limits.maxFormMemorySize (p1.length + p2.length) = true
    · have hc2 : commitPart limits
          ⟨false, cs "bar", [], cs "text/plain", .identity⟩
          [p2 ++ sepChars t8] ⟨[(cs "foo", p1)], [], p1.length⟩ =
          .error .sizeLimitExceeded := by
        rw [hcommit2, if_pos hx2]
      rw [run_step_body_last_err _ _ _ _ _ _ _ _ hlastne hlast hc2, if_neg hx1, if_pos hx2]
    · have hc2 : commitPart limits
          ⟨false, cs "bar", [], cs "text/plain", .identity⟩
          [p2 ++ sepChars t8] ⟨[(cs "foo", p1)], [], p1.length⟩ =
          .ok ⟨[(cs "foo", p1), (cs "bar", p2)], [], p1.length + p2.length⟩ := by
        rw [hcommit2, if_neg hx2]
      rw [run_step_body_last_ok _ _ _ _ _ _ _ _ hlastne hlast hc2, if_neg hx1, if_neg hx2]

theorem head?_ne_lf {x r : List Char} {a : Char} (hx : x.head? = some a) (ha : a ≠ '\n') :
    (x ++ r).head? ≠ some '\n' := by
  rw [head?_append_of_head hx]
  simp [ha]

theorem head?_ne_lf_payload {p x r : List Char} (hp : p ≠ []) (h : NoTerm p) :
    ((p ++ x) ++ r).head? ≠ some '\n' := by
  cases p with
  | nil => exact absurd rfl hp
  | cons c tl =>
    have hc := (h c (by simp)).2
    rw [List.append_assoc]
    exact head?_ne_lf (x := c :: tl) rfl hc

theorem splitLines_twoPartBody (t1 t2 t3 t4 t5 t6 t7 t8 : TSep) (p1 p2 : List Char)
    (h1 : NoTerm p1) (h2 : NoTerm p2) (hp1 : p1 ≠ []) (hp2 : p2 ≠ [])
    (hm1 : ¬(t2 = .r ∧ t3 = .n)) (hm2 : ¬(t6 = .r ∧ t7 = .n)) :
    splitLines (twoPartBody t1 t2 t3 t4 t5 t6 t7 t8 p1 p2) =
      twoPartLines t1 t2 t3 t4 t5 t6 t7 t8 p1 p2 := by
  unfold twoPartBody twoPartLines splitLines
  simp only [List.flatten, List.append_nil]
  rw [splitLinesAux_chunk t1 (cs "--foo") _ [] (by decide)
    (fun _ => head?_ne_lf (head?_append_of_head (x := cs "Content-Disposition: form-data; name=foo") rfl) (by decide))]
  rw [splitLinesAux_chunk t2 (cs "Content-Disposition: form-data; name=foo") _ [] (by decide) ?hr2]
  case hr2 =>
    intro ht2
    have ht3 : t3 ≠ TSep.n := fun h => hm1 ⟨ht2, h⟩
    cases t3
    case n => exact absurd rfl ht3
    case r => exact head?_ne_lf (x := sepChars .r) rfl (by decide)
    case rn => exact head?_ne_lf (x := sepChars .rn) rfl (by decide)
  rw [splitLinesAux_sep t3 _ (fun _ => head?_ne_lf_payload hp1 h1)]
  rw [splitLinesAux_chunk t4 p1 _ [] h1
    (fun _ => head?_ne_lf (head?_append_of_head (x := cs "--foo") rfl) (by decide))]
  rw [splitLinesAux_chunk t5 (cs "--foo") _ [] (by decide)
    (fun _ => head?_ne_lf (head?_append_of_head (x := cs "Content-Disposition: form-data; name=bar") rfl) (by decide))]
  rw [splitLinesAux_chunk t6 (cs "Content-Disposition: form-data; name=bar") _ [] (by decide) ?hr6]
  case hr6 =>
    intro ht6
    have ht7 : t7 ≠ TSep.n := fun h => hm2 ⟨ht6, h⟩
    cases t7
    case n => exact absurd rfl ht7
    case r => exact head?_ne_lf (x := sepChars .r) rfl (by decide)
    case rn => exact head?_ne_lf (x := sepChars .rn) rfl (by decide)
  rw [splitLinesAux_sep t7 _ (fun _ => head?_ne_lf_payload hp2 h2)]
  rw [splitLinesAux_chunk t8 p2 _ [] h2 (fun _ => by decide)]
  rw [show splitLinesAux (cs "--foo--") [] = [cs "--foo--"] from by decide]
  simp

/-- A byte string safe for identity urlencoded round-trip: free of the
separator, equals sign, percent escapes and plus signs. -/
def URLSafe (l : List Char) : Prop := ∀ c ∈ l, c ≠ '&' ∧ c ≠ '=' ∧ c ≠ '%' ∧ c ≠ '+'

instance : DecidablePred URLSafe := fun l => by unfold URLSafe; infer_instance

theorem splitOnChar_no_sep (sep : Char) (a : List Char) (h : sep ∉ a) :
    splitOnChar sep a = [a] := by
  induction a with
  | nil => rfl
  | cons c tl ih =>
    have hc : c ≠ sep := fun h2 => h (by simp [h2])
    have htl : sep ∉ tl := fun h2 => h (by simp [h2])
    simp [splitOnChar, hc, ih htl]

theorem splitOnChar_split (sep : Char) (a b : List Char) (h : sep ∉ a) :
    splitOnChar sep (a ++ sep :: b) = a :: splitOnChar sep b := by
  induction a with
  | nil => simp [splitOnChar]
  | cons c tl ih =>
    have hc : c ≠ sep := fun h2 => h (by simp [h2])
    have htl : sep ∉ tl := fun h2 => h (by simp [h2])
    simp [splitOnChar, hc, ih htl]

theorem splitKV_no_eq (a b : List Char) (h : ('=' : Char) ∉ a) :
    splitKV (a ++ '=' :: b) = (a, b) := by
  induction a with
  | nil => simp [splitKV]
  | cons c tl ih =>
    have hc : c ≠ '=' := fun h2 => h (by simp [h2])
    have htl : ('=' : Char) ∉ tl := fun h2 => h (by simp [h2])
    simp [splitKV, hc, ih htl]

theorem pctDecode_safe (p : List Char) (h : URLSafe p) : pctDecode p = p := by
  induction p with
  | nil => rfl
  | cons c tl ih =>
    have hc := h c (by simp)
    have htl : URLSafe tl := fun x hx => h x (by simp [hx])
    cases tl with
    | nil => simp [pctDecode, hc.2.2.1, hc.2.2.2]
    | cons c2 tl2 =>
      cases tl2 with
      | nil => simp [pctDecode, hc.2.2.1, hc.2.2.2, ih htl]
      | cons c3 tl3 => simp [pctDecode, hc.2.2.1, hc.2.2.2, ih htl]

/-- The two-field urlencoded body used by the test suite's limit checks. -/
def urlBody (p1 p2 : List Char) : List Char :=
  cs "foo=" ++ p1 ++ '&' :: (cs "bar=" ++ p2)

/-- The two-field multipart body with all-CRLF terminators. -/
def mpBody (p1 p2 : List Char) : List Char :=
  twoPartBody .rn .rn .rn .rn .rn .rn .rn .rn p1 p2

theorem if_chain_collapse {A : Type} (m a b : Nat) (x y : A) :
    (if exceedsLimit (some m) a = true then x
     else if exceedsLimit (some m) (a + b) = true then x else y) =
      if m < a + b then x else y := by
  by_cases h1 : m < a
  · have h2 : m < a + b := Nat.lt_of_lt_of_le h1 (Nat.le_add_right a b)
    simp [exceedsLimit, h1, h2]
  · simp [exceedsLimit, h1]

theorem urlPairs_two (p1 p2 : List Char) (h1 : URLSafe p1) (h2 : URLSafe p2) :
    urlPairs (urlBody p1 p2) = [(cs "foo", p1), (cs "bar", p2)] := by
  have hamp1 : ('&' : Char) ∉ cs "foo=" ++ p1 := by
    intro hm
    rcases List.mem_append.mp hm with hx | hx
    · revert hx; decide
    · exact (h1 '&' hx).1 rfl
  have hamp2 : ('&' : Char) ∉ cs "bar=" ++ p2 := by
    intro hm
    rcases List.mem_append.mp hm with hx | hx
    · revert hx; decide
    · exact (h2 '&' hx).1 rfl
  have hsplit : splitOnChar '&' (urlBody p1 p2) =
      [cs "foo=" ++ p1, cs "bar=" ++ p2] := by
    unfold urlBody
    rw [splitOnChar_split '&' (cs "foo=" ++ p1) _ hamp1,
        splitOnChar_no_sep '&' _ hamp2]
  have hkv1 : splitKV (cs "foo=" ++ p1) = (cs "foo", p1) := by
    rw [show cs "foo=" ++ p1 = cs "foo" ++ '=' :: p1 from rfl]
    exact splitKV_no_eq (cs "foo") p1 (by decide)
  have hkv2 : splitKV (cs "bar=" ++ p2) = (cs "bar", p2) := by
    rw [show cs "bar=" ++ p2 = cs "bar" ++ '=' :: p2 from rfl]
    exact splitKV_no_eq (cs "bar") p2 (by decide)
  have hne1 : cs "foo=" ++ p1 ≠ [] := by simp [cs]
  have hne2 : cs "bar=" ++ p2 ≠ [] := by simp [cs]
  simp [urlPairs, hsplit, hne1, hne2, hkv1, hkv2]

theorem multipart_parse_twoPartBody (mcl mfs : Option Nat)
    (t1 t2 t3 t4 t5 t6 t7 t8 : TSep) (p1 p2 : List Char)
    (h1 : NoTerm p1) (h2 : NoTerm p2) (hp1 : p1 ≠ []) (hp2 : p2 ≠ [])
    (hb1 : rstripWS p1 ≠ cs "--foo") (hb1l : rstripWS p1 ≠ cs "--foo--")
    (hb2 : rstripWS p2 ≠ cs "--foo") (hb2l : rstripWS p2 ≠ cs "--foo--")
    (hm1 : ¬(t2 = .r ∧ t3 = .n)) (hm2 : ¬(t6 = .r ∧ t7 = .n))
    (hlen : exceedsLimit mcl (twoPartBody t1 t2 t3 t4 t5 t6 t7 t8 p1 p2).length = false) :
    multipart_parse (cs "foo") ⟨mcl, mfs⟩ (twoPartBody t1 t2 t3 t4 t5 t6 t7 t8 p1 p2) =
      if exceedsLimit mfs p1.length = true then .error .sizeLimitExceeded
      else if exceedsLimit mfs (p1.length + p2.length) = true then .error .sizeLimitExceeded
      else .ok ⟨[(cs "foo", p1), (cs "bar", p2)], []⟩ := by
  have hv : is_valid_multipart_boundary (cs "foo") = true := by decide
  simp only [multipart_parse, hv, Bool.not_true, Bool.false_eq_true, if_false, hlen]
  rw [splitLines_twoPartBody t1 t2 t3 t4 t5 t6 t7 t8 p1 p2 h1 h2 hp1 hp2 hm1 hm2]
  exact run_twoPart ⟨mcl, mfs⟩ t1 t2 t3 t4 t5 t6 t7 t8 p1 p2 h1 h2 hb1 hb1l hb2 hb2l

theorem C9_counterexample :
    multipart_parse (cs "foo") ⟨none, none⟩
        (cs "--foo\r\nContent-Disposition: form-data; name=a\r\n\r\nx\r\ny\r\n--foo--") =
      .ok ⟨[(cs "a", cs "x\r\ny")], []⟩ ∧
    multipart_parse (cs "foo") ⟨none, none⟩
        (cs "--foo\nContent-Disposition: form-data; name=a\n\nx\ny\n--foo--") =
      .ok ⟨[(cs "a", cs "x\ny")], []⟩ ∧
    multipart_parse (cs "foo") ⟨none, none⟩
        (cs "--foo\r\nContent-Disposition: form-data; name=a\r\n\r\nx\r\ny\r\n--foo--") ≠
      multipart_parse (cs "foo") ⟨none, none⟩
        (cs "--foo\nContent-Disposition: form-data; name=a\n\nx\ny\n--foo--") := by
  refine ⟨by decide, by decide, by decide⟩

/-- C9 (amended): replacing the line terminators of a multipart body
among LF, CR and CRLF, uniformly or mixed per structural line, leaves the
parse result identical to the all-CRLF body, provided each part's payload
sits on a single line (no terminator inside a payload, which would become
part of the field value and change with the chosen terminator) and no
bare-CR terminator is directly followed by an LF terminator of an empty
line (which would fuse into one CRLF). -/
theorem C9_mixed_line_endings (t1 t2 t3 t4 t5 t6 t7 t8 : TSep) (p1 p2 : List Char)
    (h1 : NoTerm p1) (h2 : NoTerm p2) (hp1 : p1 ≠ []) (hp2 : p2 ≠ [])
    (hb1 : rstripWS p1 ≠ cs "--foo") (hb1l : rstripWS p1 ≠ cs "--foo--")
    (hb2 : rstripWS p2 ≠ cs "--foo") (hb2l : rstripWS p2 ≠ cs "--foo--")
    (hm1 : ¬(t2 = .r ∧ t3 = .n)) (hm2 : ¬(t6 = .r ∧ t7 = .n)) :
    multipart_parse (cs "foo") ⟨none, none⟩ (twoPartBody t1 t2 t3 t4 t5 t6 t7 t8 p1 p2) =
      multipart_parse (cs "foo") ⟨none, none⟩ (mpBody p1 p2) := by
  unfold mpBody
  rw [multipart_parse_twoPartBody none none t1 t2 t3 t4 t5 t6 t7 t8 p1 p2
        h1 h2 hp1 hp2 hb1 hb1l hb2 hb2l hm1 hm2 rfl,
      multipart_parse_twoPartBody none none .rn .rn .rn .rn .rn .rn .rn .rn p1 p2
        h1 h2 hp1 hp2 hb1 hb1l hb2 hb2l (by simp) (by simp) rfl]

theorem C9_witness :
    multipart_parse (cs "foo") ⟨none, none⟩
        (twoPartBody .n .rn .r .n .r .n .rn .r
          (cs "this is just bar") (cs "blafasel")) =
      multipart_parse (cs "foo") ⟨none, none⟩
        (mpBody (cs "this is just bar") (cs "blafasel")) :=
  C9_mixed_line_endings .n .rn .r .n .r .n .rn .r
    (cs "this is just bar") (cs "blafasel")
    (by decide) (by decide) (by decide) (by decide)
    (by decide) (by decide) (by decide) (by decide)
    (by decide) (by decide)

theorem parse_urlencoded_twoPart (mcl mfs : Option Nat) (p1 p2 : List Char)
    (hu1 : URLSafe p1) (hu2 : URLSafe p2)
    (hlen : exceedsLimit mcl (urlBody p1 p2).length = false) :
    parse_urlencoded ⟨mcl, mfs⟩ (urlBody p1 p2) =
      if exceedsLimit mfs p1.length = true then .error .sizeLimitExceeded
      else if exceedsLimit mfs (p1.length + p2.length) = true then .error .sizeLimitExceeded
      else .ok ⟨[(cs "foo", p1), (cs "bar", p2)], []⟩ := by
  have e1 := pctDecode_safe p1 hu1
  have e2 := pctDecode_safe p2 hu2
  have ek1 : pctDecode (cs "foo") = cs "foo" := by decide
  have ek2 : pctDecode (cs "bar") = cs "bar" := by decide
  have hfold : urlFold mfs [(cs "foo", p1), (cs "bar", p2)] 0 =
      if exceedsLimit mfs p1.length = true then .error .sizeLimitExceeded
      else if exceedsLimit mfs (p1.length + p2.length) = true then .error .sizeLimitExceeded
      else .ok [(cs "foo", p1), (cs "bar", p2)] := by
    by_cases hx1 : exceedsLimit mfs p1.length = true
    · simp [urlFold, e1, hx1]
    · by_cases hx2 : exceedsLimit mfs (p1.length + p2.length) = true
      · simp [urlFold, e1, e2, ek1, ek2, hx1, hx2]
      · simp [urlFold, e1, e2, ek1, ek2, hx1, hx2]
  simp only [parse_urlencoded, hlen, Bool.false_eq_true, if_false]
  rw [urlPairs_two p1 p2 hu1 hu2, hfold]
  by_cases hx1 : exceedsLimit mfs p1.length = true
  · simp [hx1]
  · by_cases hx2 : exceedsLimit mfs (p1.length + p2.length) = true
    · simp [hx1, hx2]
    · simp [hx1, hx2]

/-- C1: with a form memory limit set, both the urlencoded and the
multipart parse of a two-field body raise the size-limit error exactly
when the cumulative size of the two field values exceeds the limit, and
otherwise succeed with the full field values; the error escapes even the
silent dispatcher mode.  The field byte count is cumulative across fields,
not per field. -/
theorem C1_max_form_memory_size (m : Nat) (p1 p2 : List Char)
    (h1 : NoTerm p1) (h2 : NoTerm p2) (hp1 : p1 ≠ []) (hp2 : p2 ≠ [])
    (hb1 : rstripWS p1 ≠ cs "--foo") (hb1l : rstripWS p1 ≠ cs "--foo--")
    (hb2 : rstripWS p2 ≠ cs "--foo") (hb2l : rstripWS p2 ≠ cs "--foo--")
    (hu1 : URLSafe p1) (hu2 : URLSafe p2) :
    parse_form_data (some (cs "application/x-www-form-urlencoded"))
        (some (urlBody p1 p2).length) ⟨none, some m⟩ true (urlBody p1 p2) =
      (if m < p1.length + p2.length then .error .sizeLimitExceeded
       else .ok ⟨[], [(cs "foo", p1), (cs "bar", p2)], []⟩) ∧
    parse_form_data (some (cs "multipart/form-data; boundary=foo"))
        (some (mpBody p1 p2).length) ⟨none, some m⟩ true (mpBody p1 p2) =
      (if m < p1.length + p2.length then .error .sizeLimitExceeded
       else .ok ⟨[], [(cs "foo", p1), (cs "bar", p2)], []⟩) := by
  constructor
  · have hdk : dispatchKind (some (cs "application/x-www-form-urlencoded")) =
        some .urlencoded := by decide
    simp only [parse_form_data, hdk]
    rw [parse_urlencoded_twoPart none (some m) p1 p2 hu1 hu2 rfl, if_chain_collapse]
    by_cases hx : m < p1.length + p2.length
    · simp [wrapSilent, hx]
    · simp [wrapSilent, hx]
  · have hdk : dispatchKind (some (cs "multipart/form-data; boundary=foo")) =
        some (.multipart (cs "foo")) := by decide
    simp only [parse_form_data, hdk]
    unfold mpBody
    rw [multipart_parse_twoPartBody none (some m) .rn .rn .rn .rn .rn .rn .rn .rn p1 p2
          h1 h2 hp1 hp2 hb1 hb1l hb2 hb2l (by simp) (by simp) rfl,
        if_chain_collapse]
    by_cases hx : m < p1.length + p2.length
    · simp [wrapSilent, hx]
    · simp [wrapSilent, hx]

theorem C1_witness :
    parse_form_data (some (cs "application/x-www-form-urlencoded"))
        (some (urlBody (cs "Hello World") (cs "baz")).length) ⟨none, some 7⟩ true
        (urlBody (cs "Hello World") (cs "baz")) = .error .sizeLimitExceeded ∧
    parse_form_data (some (cs "multipart/form-data; boundary=foo"))
        (some (mpBody (cs "Hello World") (cs "baz")).length) ⟨none, some 7⟩ true
        (mpBody (cs "Hello World") (cs "baz")) = .error .sizeLimitExceeded ∧
    parse_form_data (some (cs "application/x-www-form-urlencoded"))
        (some (urlBody (cs "Hello World") (cs "baz")).length) ⟨none, some 400⟩ true
        (urlBody (cs "Hello World") (cs "baz")) =
      .ok ⟨[], [(cs "foo", cs "Hello World"), (cs "bar", cs "baz")], []⟩ ∧
    parse_form_data (some (cs "multipart/form-data; boundary=foo"))
        (some (mpBody (cs "Hello World") (cs "baz")).length) ⟨none, some 400⟩ true
        (mpBody (cs "Hello World") (cs "baz")) =
      .ok ⟨[], [(cs "foo", cs "Hello World"), (cs "bar", cs "baz")], []⟩ := by
  have h7 := C1_max_form_memory_size 7 (cs "Hello World") (cs "baz")
    (by decide) (by decide) (by decide) (by decide) (by decide) (by decide)
    (by decide) (by decide) (by decide) (by decide)
  have h400 := C1_max_form_memory_size 400 (cs "Hello World") (cs "baz")
    (by decide) (by decide) (by decide) (by decide) (by decide) (by decide)
    (by decide) (by decide) (by decide) (by decide)
  refine ⟨?_, ?_, ?_, ?_⟩
  · rw [h7.1, if_pos (by decide)]
  · rw [h7.2, if_pos (by decide)]
  · rw [h400.1, if_neg (by decide)]
  · rw [h400.2, if_neg (by decide)]


/-- C2: with a recognized content type, a declared content length above
the content length limit makes the dispatcher fail with the size-limit
error for every body, silent flag and form memory limit, i.e. without
reading the stream and without returning partial data; a declared length
within the limit does not help when the actual body size is above it —
both the multipart and the urlencoded parser raise the size-limit error
during parsing from the observed byte count, for every body; and with the
limit at least the body size, both parses succeed with the full field
values. -/
theorem C2_max_content_length (ct : Option (List Char)) (k : DispatchKind)
    (m cl : Nat) (mfs : Option Nat) (silent : Bool) (body : List Char)
    (m2 : Nat) (p1 p2 : List Char) (m3 cl3 : Nat) (body2 : List Char)
    (hdk : dispatchKind ct = some k) (hover : m < cl)
    (h1 : NoTerm p1) (h2 : NoTerm p2) (hp1 : p1 ≠ []) (hp2 : p2 ≠ [])
    (hb1 : rstripWS p1 ≠ cs "--foo") (hb1l : rstripWS p1 ≠ cs "--foo--")
    (hb2 : rstripWS p2 ≠ cs "--foo") (hb2l : rstripWS p2 ≠ cs "--foo--")
    (hu1 : URLSafe p1) (hu2 : URLSafe p2)
    (hfit_mp : (mpBody p1 p2).length ≤ m2) (hfit_url : (urlBody p1 p2).length ≤ m2)
    (hdecl : cl3 ≤ m3) (hactual : m3 < body2.length) :
    parse_form_data ct (some cl) ⟨some m, mfs⟩ silent body = .error .sizeLimitExceeded ∧
    parse_form_data (some (cs "multipart/form-data; boundary=foo"))
        (some cl3) ⟨some m3, mfs⟩ silent body2 = .error .sizeLimitExceeded ∧
    parse_form_data (some (cs "application/x-www-form-urlencoded"))
        (some cl3) ⟨some m3, mfs⟩ silent body2 = .error .sizeLimitExceeded ∧
    parse_form_data (some (cs "multipart/form-data; boundary=foo"))
        (some (mpBody p1 p2).length) ⟨some m2, none⟩ silent (mpBody p1 p2) =
      .ok ⟨[], [(cs "foo", p1), (cs "bar", p2)], []⟩ ∧
    parse_form_data (some (cs "application/x-www-form-urlencoded"))
        (some (urlBody p1 p2).length) ⟨some m2, none⟩ silent (urlBody p1 p2) =
      .ok ⟨[], [(cs "foo", p1), (cs "bar", p2)], []⟩ := by
  refine ⟨?_, ?_, ?_, ?_, ?_⟩
  · simp only [parse_form_data, hdk]
    simp [hover]
  · have hdk2 : dispatchKind (some (cs "multipart/form-data; boundary=foo")) =
        some (.multipart (cs "foo")) := by decide
    have hmp : multipart_parse (cs "foo") ⟨some m3, mfs⟩ body2 =
        .error .sizeLimitExceeded := by
      have hv : is_valid_multipart_boundary (cs "foo") = true := by decide
      simp only [multipart_parse, hv, Bool.not_true, Bool.false_eq_true, if_false]
      rw [if_pos (by simp [exceedsLimit, hactual])]
    simp only [parse_form_data, hdk2]
    rw [if_neg (by simpa using Nat.not_lt.mpr hdecl)]
    rw [hmp]
    simp [wrapSilent]
  · have hdk3 : dispatchKind (some (cs "application/x-www-form-urlencoded")) =
        some .urlencoded := by decide
    have hurl : parse_urlencoded ⟨some m3, mfs⟩ body2 = .error .sizeLimitExceeded := by
      simp only [parse_urlencoded]
      rw [if_pos (by simp [exceedsLimit, hactual])]
    simp only [parse_form_data, hdk3]
    rw [if_neg (by simpa using Nat.not_lt.mpr hdecl)]
    rw [hurl]
    simp [wrapSilent]
  · have hdk2 : dispatchKind (some (cs "multipart/form-data; boundary=foo")) =
        some (.multipart (cs "foo")) := by decide
    have hnl : ¬(m2 < (mpBody p1 p2).length) := Nat.not_lt.mpr hfit_mp
    have hlen : exceedsLimit (some m2)
        (twoPartBody .rn .rn .rn .rn .rn .rn .rn .rn p1 p2).length = false := by
      simpa [exceedsLimit] using hnl
    simp only [parse_form_data, hdk2]
    rw [if_neg (by simpa using hnl)]
    unfold mpBody
    rw [multipart_parse_twoPartBody (some m2) none .rn .rn .rn .rn .rn .rn .rn .rn p1 p2
          h1 h2 hp1 hp2 hb1 hb1l hb2 hb2l (by simp) (by simp) hlen]
    simp [exceedsLimit, wrapSilent]
  · have hdk3 : dispatchKind (some (cs "application/x-www-form-urlencoded")) =
        some .urlencoded := by decide
    have hnl2 : ¬(m2 < (urlBody p1 p2).length) := Nat.not_lt.mpr hfit_url
    have hlen2 : exceedsLimit (some m2) (urlBody p1 p2).length = false := by
      simpa [exceedsLimit] using hnl2
    simp only [parse_form_data, hdk3]
    rw [if_neg (by simpa using hnl2)]
    rw [parse_urlencoded_twoPart (some m2) none p1 p2 hu1 hu2 hlen2]
    simp [exceedsLimit, wrapSilent]

set_option maxRecDepth 10000 in
theorem C2_witness :
    parse_form_data (some (cs "multipart/form-data; boundary=foo"))
        (some (mpBody (cs "Hello World") (cs "baz")).length) ⟨some 4, none⟩ true
        (mpBody (cs "Hello World") (cs "baz")) = .error .sizeLimitExceeded ∧
    parse_form_data (some (cs "multipart/form-data; boundary=foo"))
        (some 4) ⟨some 4, none⟩ true
        (mpBody (cs "Hello World") (cs "baz")) = .error .sizeLimitExceeded ∧
    parse_form_data (some (cs "application/x-www-form-urlencoded"))
        (some 4) ⟨some 4, none⟩ true
        (mpBody (cs "Hello World") (cs "baz")) = .error .sizeLimitExceeded ∧
    parse_form_data (some (cs "multipart/form-data; boundary=foo"))
        (some (mpBody (cs "Hello World") (cs "baz")).length) ⟨some 400, none⟩ true
        (mpBody (cs "Hello World") (cs "baz")) =
      .ok ⟨[], [(cs "foo", cs "Hello World"), (cs "bar", cs "baz")], []⟩ ∧
    parse_form_data (some (cs "application/x-www-form-urlencoded"))
        (some (urlBody (cs "Hello World") (cs "baz")).length) ⟨some 400, none⟩ true
        (urlBody (cs "Hello World") (cs "baz")) =
      .ok ⟨[], [(cs "foo", cs "Hello World"), (cs "bar", cs "baz")], []⟩ := by
  have h := C2_max_content_length (some (cs "multipart/form-data; boundary=foo"))
    (.multipart (cs "foo")) 4 (mpBody (cs "Hello World") (cs "baz")).length none true
    (mpBody (cs "Hello World") (cs "baz")) 400 (cs "Hello World") (cs "baz")
    4 4 (mpBody (cs "Hello World") (cs "baz"))
    (by decide) (by decide) (by decide) (by decide) (by decide) (by decide)
    (by decide) (by decide) (by decide) (by decide) (by decide) (by decide)
    (by decide) (by decide) (by decide) (by decide)
  exact ⟨h.1, h.2.1, h.2.2.1, h.2.2.2.1, h.2.2.2.2⟩

/-- The physical lines of a multipart body with one well-formed text field
followed by a file part declaring base64 transfer encoding with payload p. -/
def badB64Lines (p : List Char) : List (List Char) :=
  [cs "--foo" ++ sepChars .rn,
   cs "Content-Disposition: form-data; name=foo" ++ sepChars .rn,
   sepChars .rn,
   cs "Hello World" ++ sepChars .rn,
   cs "--foo" ++ sepChars .rn,
   cs "Content-Disposition: form-data; name=\"test\"; filename=\"test.txt\"" ++ sepChars .rn,
   cs "Content-Transfer-Encoding: base64" ++ sepChars .rn,
   cs "Content-Type: text/plain" ++ sepChars .rn,
   sepChars .rn,
   p ++ sepChars .rn,
   cs "--foo--"]

/-- The byte stream of that body. -/
def badB64Body (p : List Char) : List Char := (badB64Lines p).flatten

theorem splitLines_badB64Body (p : List Char) (hp : NoTerm p) :
    splitLines (badB64Body p) = badB64Lines p := by
  unfold badB64Body badB64Lines splitLines
  simp only [List.flatten, List.append_nil]
  rw [splitLinesAux_chunk .rn (cs "--foo") _ [] (by decide) (by simp)]
  rw [splitLinesAux_chunk .rn (cs "Content-Disposition: form-data; name=foo") _ []
    (by decide) (by simp)]
  rw [splitLinesAux_sep .rn _ (by simp)]
  rw [splitLinesAux_chunk .rn (cs "Hello World") _ [] (by decide) (by simp)]
  rw [splitLinesAux_chunk .rn (cs "--foo") _ [] (by decide) (by simp)]
  rw [splitLinesAux_chunk .rn
    (cs "Content-Disposition: form-data; name=\"test\"; filename=\"test.txt\"") _ []
    (by decide) (by simp)]
  rw [splitLinesAux_chunk .rn (cs "Content-Transfer-Encoding: base64") _ []
    (by decide) (by simp)]
  rw [splitLinesAux_chunk .rn (cs "Content-Type: text/plain") _ [] (by decide) (by simp)]
  rw [splitLinesAux_sep .rn _ (by simp)]
  rw [splitLinesAux_chunk .rn p _ [] hp (by simp)]
  rw [show splitLinesAux (cs "--foo--") [] = [cs "--foo--"] from by decide]
  simp

theorem run_badB64 (p : List Char) (hp : NoTerm p)
    (hpb : rstripWS p ≠ cs "--foo") (hpbl : rstripWS p ≠ cs "--foo--")
    (hbad : base64Decode p = none) :
    run (cs "foo") ⟨none, none⟩ .preamble ⟨[], [], 0⟩ (badB64Lines p) =
      .error .decodeError := by
  have nb : nextPart (cs "foo") = cs "--foo" := by decide
  have lb : lastPart (cs "foo") = cs "--foo--" := by decide
  unfold badB64Lines
  rw [run_step_preamble_next _ _ _ _ _ (by decide)]
  rw [run_step_headers_collect _ _ _ _ _ _ (by decide) (by decide)]
  rw [run_step_headers_done _ _ _ _ _ _
    [(cs "content-disposition", cs "form-data; name=foo")]
    ⟨false, cs "foo", [], cs "text/plain", .identity⟩
    (by decide) (by decide) (by decide)]
  rw [run_step_body_collect _ _ _ _ _ _ _ (by decide) (by decide)]
  rw [run_step_body_next_ok _ _ _ _ _
    ⟨[(cs "foo", cs "Hello World")], [], 11⟩ _ _ (by decide) (by decide)]
  rw [run_step_headers_collect _ _ _ _ _ _ (by decide) (by decide)]
  rw [run_step_headers_collect _ _ _ _ _ _ (by decide) (by decide)]
  rw [run_step_headers_collect _ _ _ _ _ _ (by decide) (by decide)]
  rw [run_step_headers_done _ _ _ _ _ _
    [(cs "content-disposition", cs "form-data; name=\"test\"; filename=\"test.txt\""),
     (cs "content-transfer-encoding", cs "base64"),
     (cs "content-type", cs "text/plain")]
    ⟨true, cs "test", cs "test.txt", cs "text/plain", .base64⟩
    (by decide) (by decide) (by decide)]
  have hp1ne : rstripWS (p ++ sepChars .rn) ≠ nextPart (cs "foo") := by
    rw [rstripWS_append_sep, nb]; exact hpb
  have hp1nl : rstripWS (p ++ sepChars .rn) ≠ lastPart (cs "foo") := by
    rw [rstripWS_append_sep, lb]; exact hpbl
  rw [run_step_body_collect _ _ _ _ _ _ _ hp1ne hp1nl]
  have hc := commitPart_single_line ⟨none, none⟩
    ⟨true, cs "test", cs "test.txt", cs "text/plain", .base64⟩ .rn p hp
    ⟨[(cs "foo", cs "Hello World")], [], 11⟩
  simp [decodeTE, hbad] at hc
  exact run_step_body_last_err _ _ _ _ _ _ _ _ (by decide) (by decide) hc

/-- C3: a multipart part declaring base64 transfer encoding with an
invalid payload is fatal to the whole parse: the Multipart Parser and the
strict (non-silent) dispatcher raise the decode error, and the default
silent dispatcher returns empty field and file mappings, committing
nothing from the earlier well-formed field part of the same body. -/
theorem C3_invalid_base64 (p : List Char) (hp : NoTerm p)
    (hpb : rstripWS p ≠ cs "--foo") (hpbl : rstripWS p ≠ cs "--foo--")
    (hbad : base64Decode p = none) :
    multipart_parse (cs "foo") ⟨none, none⟩ (badB64Body p) = .error .decodeError ∧
    parse_form_data (some (cs "multipart/form-data; boundary=foo"))
        (some (badB64Body p).length) ⟨none, none⟩ false (badB64Body p) =
      .error .decodeError ∧
    parse_form_data (some (cs "multipart/form-data; boundary=foo"))
        (some (badB64Body p).length) ⟨none, none⟩ true (badB64Body p) =
      .ok ⟨[], [], []⟩ := by
  have hmp : multipart_parse (cs "foo") ⟨none, none⟩ (badB64Body p) =
      .error .decodeError := by
    have hv : is_valid_multipart_boundary (cs "foo") = true := by decide
    simp only [multipart_parse, hv, Bool.not_true, Bool.false_eq_true, if_false]
    rw [show exceedsLimit none (badB64Body p).length = false from rfl]
    rw [splitLines_badB64Body p hp]
    exact run_badB64 p hp hpb hpbl hbad
  have hdk : dispatchKind (some (cs "multipart/form-data; boundary=foo")) =
      some (.multipart (cs "foo")) := by decide
  refine ⟨hmp, ?_, ?_⟩
  · simp only [parse_form_data, hdk]
    rw [hmp]
    simp [wrapSilent]
  · simp only [parse_form_data, hdk]
    rw [hmp]
    simp [wrapSilent]

set_option maxRecDepth 10000 in
theorem C3_witness :
    multipart_parse (cs "foo") ⟨none, none⟩ (badB64Body (cs "broken base 64")) =
      .error .decodeError ∧
    parse_form_data (some (cs "multipart/form-data; boundary=foo"))
        (some (badB64Body (cs "broken base 64")).length) ⟨none, none⟩ false
        (badB64Body (cs "broken base 64")) = .error .decodeError ∧
    parse_form_data (some (cs "multipart/form-data; boundary=foo"))
        (some (badB64Body (cs "broken base 64")).length) ⟨none, none⟩ true
        (badB64Body (cs "broken base 64")) = .ok ⟨[], [], []⟩ :=
  C3_invalid_base64 (cs "broken base 64") (by decide) (by decide) (by decide) (by decide)

theorem decodeTE_error_eq (enc : TEnc) (l : List Char) (e : MpErr)
    (h : decodeTE enc l = .error e) : e = .decodeError := by
  cases enc
  case identity => exact absurd h (by simp [decodeTE])
  case base64 =>
    rcases hb : base64Decode l with _ | r
    · simp [decodeTE, hb] at h
      exact h.symm
    · simp [decodeTE, hb] at h
  case qp =>
    rcases hb : qpDecode l with _ | r
    · simp [decodeTE, hb] at h
      exact h.symm
    · simp [decodeTE, hb] at h

theorem parseHeadersAux_error_eq (lines : List (List Char)) :
    ∀ (acc : List (List Char × List Char)) (e : MpErr),
      parseHeadersAux lines acc = .error e → e = .malformedHeaderBlock := by
  induction lines with
  | nil => intro acc e h; simp [parseHeadersAux] at h
  | cons l tl ih =>
    intro acc e h
    rcases hlp : line_parse l with ⟨c, t⟩
    cases t
    · simp only [parseHeadersAux, hlp] at h
      simp at h
      exact h.symm
    · simp only [parseHeadersAux, hlp] at h
      by_cases hc : c.isEmpty = true
      · simp [hc] at h
      · by_cases hws : startsWithWS c = true
        · cases acc with
          | nil =>
            simp [hc, hws] at h
            exact h.symm
          | cons kv tl2 =>
            obtain ⟨k, v⟩ := kv
            simp [hc, hws] at h
            exact ih _ _ h
        · rcases hsc : splitColon c with _ | kv
          · simp [hc, hws, hsc] at h
            exact h.symm
          · obtain ⟨k, v⟩ := kv
            simp [hc, hws, hsc] at h
            exact ih _ _ h

theorem parse_multipart_headers_error_eq (lines : List (List Char)) (e : MpErr)
    (h : parse_multipart_headers lines = .error e) : e = .malformedHeaderBlock :=
  parseHeadersAux_error_eq lines [] e h

theorem makePartDesc_error_ne_size (hs : List (List Char × List Char)) (e : MpErr)
    (h : makePartDesc hs = .error e) : e ≠ .sizeLimitExceeded := by
  rcases hcd : headerGet hs (cs "content-disposition") with _ | dv
  · simp [makePartDesc, hcd] at h
    subst h
    decide
  · rcases hnm : paramGet (parse_options_header dv).2 (cs "name") with _ | nm
    · simp [makePartDesc, hcd, hnm] at h
      subst h
      decide
    · rcases hte : headerGet hs (cs "content-transfer-encoding") with _ | ev
      · simp [makePartDesc, hcd, hnm, hte, Bind.bind, Except.bind] at h
      · by_cases hb64 : lowerCS (stripWS ev) = cs "base64"
        · simp [makePartDesc, hcd, hnm, hte, hb64, Bind.bind, Except.bind] at h
        · by_cases hqp : lowerCS (stripWS ev) = cs "quoted-printable"
          · simp [makePartDesc, hcd, hnm, hte, hb64, hqp, Bind.bind, Except.bind] at h
            split at h <;> simp_all
          · by_cases hid : lowerCS (stripWS ev) = cs "identity"
            · simp [makePartDesc, hcd, hnm, hte, hb64, hqp, hid, Bind.bind,
                Except.bind] at h
              split at h <;> (try split at h) <;> simp_all
            · simp [makePartDesc, hcd, hnm, hte, hb64, hqp, hid, Bind.bind,
                Except.bind] at h
              subst h
              decide

theorem commitPart_error_eq (mcl : Option Nat) (pd : PartDesc)
    (raw : List (List Char)) (acc : PAcc) (e : MpErr)
    (h : commitPart ⟨mcl, none⟩ pd raw acc = .error e) : e = .decodeError := by
  rcases hde : decodeTE pd.enc (stripLastTerm raw.reverse.flatten) with e2 | data
  · have he2 := decodeTE_error_eq pd.enc _ e2 hde
    subst he2
    simp [commitPart, hde, Bind.bind, Except.bind] at h
    exact h.symm
  · cases hf : pd.isFile <;>
      simp [commitPart, hde, Bind.bind, Except.bind, hf, exceedsLimit] at h

theorem run_no_final_boundary (bnd : List Char) (mcl : Option Nat) :
    ∀ (ls : List (List Char)) (st : PState) (acc : PAcc),
      (∀ l ∈ ls, rstripWS l ≠ lastPart bnd) →
      ∃ e, e ≠ MpErr.sizeLimitExceeded ∧
        run bnd ⟨mcl, none⟩ st acc ls = .error e := by
  intro ls
  induction ls with
  | nil =>
    intro st acc _
    refine ⟨.truncatedBody, by decide, ?_⟩
    cases st <;> rfl
  | cons l tl ih =>
    intro st acc h
    have hl := h l (by simp)
    have htl : ∀ x ∈ tl, rstripWS x ≠ lastPart bnd := fun x hx => h x (by simp [hx])
    cases st with
    | preamble =>
      by_cases hn : rstripWS l = nextPart bnd
      · rw [run_step_preamble_next _ _ _ _ _ hn]
        exact ih (.inHeaders []) acc htl
      · rw [run_step_preamble_skip _ _ _ _ _ hn hl]
        exact ih .preamble acc htl
    | inHeaders hacc =>
      rcases hlp : line_parse l with ⟨c, t⟩
      cases t with
      | false =>
        refine ⟨.malformedHeaderBlock, by decide, ?_⟩
        simp [run, hlp]
      | true =>
        by_cases hc : c.isEmpty = true
        · have hc' : c = [] := by
            cases c with
            | nil => rfl
            | cons a b => simp at hc
          subst hc'
          rcases hph : parse_multipart_headers hacc.reverse with e2 | hs
          · refine ⟨e2, ?_, ?_⟩
            · rw [parse_multipart_headers_error_eq _ _ hph]; decide
            · rw [run_step_headers_blank _ _ _ _ _ _ hlp, hph]
          · rcases hpd : makePartDesc hs with e2 | pd
            · refine ⟨e2, makePartDesc_error_ne_size hs e2 hpd, ?_⟩
              rw [run_step_headers_blank _ _ _ _ _ _ hlp, hph]
              simp [hpd]
            · rw [run_step_headers_done _ _ _ _ _ _ _ _ hlp hph hpd]
              exact ih (.inBody pd []) acc htl
        · rw [run_step_headers_collect _ _ _ _ _ _ (by rw [hlp])
            (by rw [hlp]; intro h0; simp only at h0; rw [h0] at hc; exact hc rfl)]
          exact ih (.inHeaders (l :: hacc)) acc htl
    | inBody pd bacc =>
      by_cases hn : rstripWS l = nextPart bnd
      · rcases hcp : commitPart ⟨mcl, none⟩ pd bacc acc with e2 | acc2
        · refine ⟨e2, ?_, run_step_body_next_err _ _ _ _ _ _ _ _ hn hcp⟩
          rw [commitPart_error_eq mcl pd bacc acc e2 hcp]
          decide
        · rw [run_step_body_next_ok _ _ _ _ _ _ _ _ hn hcp]
          exact ih (.inHeaders []) acc2 htl
      · rw [run_step_body_collect _ _ _ _ _ _ _ hn hl]
        exact ih (.inBody pd (l :: bacc)) acc htl

/-- C4: a multipart body none of whose lines carries the final boundary
(the stream ends mid-part) makes the Multipart Parser terminate with a
hard error (never a size-limit error and never a hang, the parser being a
total function), while the lenient silent dispatcher returns empty field
and file mappings for the same body. -/
theorem C4_truncated_body (body : List Char)
    (h : ∀ l ∈ splitLines body, rstripWS l ≠ lastPart (cs "foo")) :
    (∃ e, e ≠ MpErr.sizeLimitExceeded ∧
      multipart_parse (cs "foo") ⟨none, none⟩ body = .error e) ∧
    parse_form_data (some (cs "multipart/form-data; boundary=foo"))
        (some body.length) ⟨none, none⟩ true body = .ok ⟨[], [], []⟩ := by
  obtain ⟨e, hne, hrun⟩ :=
    run_no_final_boundary (cs "foo") none (splitLines body) .preamble ⟨[], [], 0⟩ h
  have hv : is_valid_multipart_boundary (cs "foo") = true := by decide
  have hmp : multipart_parse (cs "foo") ⟨none, none⟩ body = .error e := by
    simp only [multipart_parse, hv, Bool.not_true, Bool.false_eq_true, if_false]
    rw [show exceedsLimit none body.length = false from rfl]
    exact hrun
  refine ⟨⟨e, hne, hmp⟩, ?_⟩
  have hdk : dispatchKind (some (cs "multipart/form-data; boundary=foo")) =
      some (.multipart (cs "foo")) := by decide
  simp only [parse_form_data, hdk]
  rw [hmp]
  simp [wrapSilent, hne]

set_option maxRecDepth 10000 in
theorem C4_witness :
    (∃ e, e ≠ MpErr.sizeLimitExceeded ∧
      multipart_parse (cs "foo") ⟨none, none⟩
        (cs "--foo\r\nContent-Disposition: form-field; name=foo\r\n\r\nHello World\r\n") =
        .error e) ∧
    parse_form_data (some (cs "multipart/form-data; boundary=foo"))
        (some (cs "--foo\r\nContent-Disposition: form-field; name=foo\r\n\r\nHello World\r\n").length)
        ⟨none, none⟩ true
        (cs "--foo\r\nContent-Disposition: form-field; name=foo\r\n\r\nHello World\r\n") =
      .ok ⟨[], [], []⟩ :=
  C4_truncated_body
    (cs "--foo\r\nContent-Disposition: form-field; name=foo\r\n\r\nHello World\r\n")
    (by decide)
